import Mathlib

set_option maxHeartbeats 1000000

/-! Shallow embedding of the minefield core of the bombe.rs repository.

The modules src/src/geom.rs, src/src/collections.rs and src/src/game.rs are
embedded faithfully; the duplicated definitions of src/src/main.rs (which
differ in the body of Minefield::open and Point2D::neighbours) are embedded
under names suffixed with _main.  Recursion in Minefield::open is modelled
with explicit fuel returning an Option, where a none result means the fuel
ran out before the recursion finished; a sufficiency theorem shows the
game.rs recursion always finishes within fuel bounded by the board's
number of non-opened cells. -/

/-- Cell kind, from src/src/game.rs. Rust default is Water. -/
inductive CellType where
  | Water
  | Mine
deriving DecidableEq, Repr

/-- Cell state, from src/src/game.rs. Rust default is Closed. -/
inductive CellState where
  | Closed
  | Flagged
  | Opened
deriving DecidableEq, Repr

/-- CellState::open from src/src/game.rs: Closed becomes Opened, anything else is kept. -/
def CellState.open' : CellState → CellState
  | .Closed => .Opened
  | s => s

/-- CellState::toggle_flag from src/src/game.rs. -/
def CellState.toggle_flag : CellState → CellState
  | .Closed => .Flagged
  | .Flagged => .Closed
  | .Opened => .Opened

/-- A cell, from src/src/game.rs: a kind together with a state. -/
structure Cell where
  cell_type : CellType
  state : CellState
deriving DecidableEq, Repr

/-- Cell::default() in Rust: Water and Closed. -/
def Cell.default' : Cell := ⟨.Water, .Closed⟩

/-- Cell::open from src/src/game.rs: apply CellState::open to the state. -/
def Cell.open' (c : Cell) : Cell := ⟨c.cell_type, c.state.open'⟩

/-- Cell::is_open from src/src/game.rs. -/
def Cell.is_open (c : Cell) : Bool := c.state = CellState.Opened

/-- Size2D from src/src/geom.rs (width, height). -/
structure Size2D where
  w : Nat
  h : Nat
deriving DecidableEq, Repr

/-- Point2D from src/src/geom.rs. -/
structure Point2D where
  x : Nat
  y : Nat
deriving DecidableEq, Repr

/-- Size2D::contains from src/src/geom.rs. -/
def Size2D.contains (s : Size2D) (p : Point2D) : Bool := p.x < s.w && p.y < s.h

/-- Point2D::neighbours from src/src/geom.rs: offsets (0..=2)x(0..=2) are added to
the point, points with a zero component are dropped, the rest are shifted back by
one in each component and the point itself is dropped. -/
def Point2D.neighbours (p : Point2D) : List Point2D :=
  ((([0, 1, 2] : List Nat).flatMap fun a => ([0, 1, 2] : List Nat).map fun b => Point2D.mk a b)
    |>.map (fun o => Point2D.mk (o.x + p.x) (o.y + p.y))
    |>.filter (fun q => 0 < q.x && 0 < q.y)
    |>.map (fun q => Point2D.mk (q.x - 1) (q.y - 1))
    |>.filter (fun q => decide (q ≠ p)))

/-- Point2D::neighbours as duplicated in src/src/main.rs: the eight points around
the shifted origin, with the zero-component points dropped and shifted back. -/
def Point2D.neighbours_main (p : Point2D) : List Point2D :=
  let o := Point2D.mk (p.x + 1) (p.y + 1)
  ([Point2D.mk (o.x - 1) (o.y - 1), Point2D.mk o.x (o.y - 1), Point2D.mk (o.x + 1) (o.y - 1),
    Point2D.mk (o.x - 1) o.y, Point2D.mk (o.x + 1) o.y,
    Point2D.mk (o.x - 1) (o.y + 1), Point2D.mk o.x (o.y + 1), Point2D.mk (o.x + 1) (o.y + 1)]
    |>.filter (fun q => 0 < q.x && 0 < q.y)
    |>.map (fun q => Point2D.mk (q.x - 1) (q.y - 1)))

/-- Vec2D from src/src/collections.rs: a size and a vector of columns (the outer
vector is indexed by the x coordinate, matching vec![vec![default; size.1]; size.0]). -/
structure Vec2D (α : Type) where
  size : Size2D
  data : List (List α)
deriving DecidableEq, Repr

/-- Vec2D::sized from src/src/collections.rs. -/
def Vec2D.sized {α : Type} (s : Size2D) (dflt : α) : Vec2D α :=
  ⟨s, List.replicate s.w (List.replicate s.h dflt)⟩

/-- Vec2D::get from src/src/collections.rs: none outside the declared size,
otherwise nested indexing. -/
def Vec2D.get {α : Type} (v : Vec2D α) (p : Point2D) : Option α :=
  if v.size.contains p then (v.data.get? p.x).bind fun row => row.get? p.y else none

/-- Writing through Vec2D::get_mut: replaces the cell at p when the row exists.
Every use in the embedding is guarded by a successful Vec2D.get, matching the
Rust pattern of mutating through a returned mutable reference. -/
def Vec2D.set {α : Type} (v : Vec2D α) (p : Point2D) (a : α) : Vec2D α :=
  match v.data.get? p.x with
  | none => v
  | some row => ⟨v.size, v.data.set p.x (row.set p.y a)⟩

/-- Vec2D::all_locations from src/src/collections.rs: x outer, y inner. -/
def Vec2D.all_locations {α : Type} (v : Vec2D α) : List Point2D :=
  (List.range v.size.w).flatMap fun x => (List.range v.size.h).map fun y => Point2D.mk x y

/-- Number of entries of the backing store satisfying a predicate. -/
def Vec2D.countP {α : Type} (v : Vec2D α) (pr : α → Bool) : Nat :=
  (v.data.map fun row => (row.filter pr).length).sum

/-- Minefield from src/src/game.rs: a Vec2D of cells. -/
structure Minefield where
  data : Vec2D Cell
deriving DecidableEq, Repr

/-- Minefield::with_data. -/
def Minefield.with_data (d : Vec2D Cell) : Minefield := ⟨d⟩

/-- Minefield::size. -/
def Minefield.size (f : Minefield) : Size2D := f.data.size

/-- Minefield::get. -/
def Minefield.get (f : Minefield) (p : Point2D) : Option Cell := f.data.get p

/-- Writing through Minefield::get_mut. -/
def Minefield.set (f : Minefield) (p : Point2D) (c : Cell) : Minefield := ⟨f.data.set p c⟩

/-- Minefield::count_neighbours from src/src/game.rs, parametrised by the
neighbour function so that the game.rs and main.rs variants share one
definition: Mine cells among the in-bounds neighbours. -/
def countNb (nbr : Point2D → List Point2D) (f : Minefield) (loc : Point2D) : Nat :=
  (((nbr loc).filterMap f.get).filter fun c => decide (c.cell_type = CellType.Mine)).length

/-- Minefield::count_neighbours as in src/src/game.rs (geom.rs neighbours). -/
def Minefield.count_neighbours (f : Minefield) (loc : Point2D) : Nat :=
  countNb Point2D.neighbours f loc

/-- The non-recursive head of Minefield::open: the `if let Some(cell) = get_mut`
block.  With recheck true this is the src/src/game.rs body, which resets the
opened type to None when the cell is still not open after the call to
Cell::open (i.e. it was Flagged); with recheck false it is the src/src/main.rs
body, which lacks that reset. -/
def openCell (recheck : Bool) (f : Minefield) (loc : Point2D) : Minefield × Option CellType :=
  match f.get loc with
  | none => (f, none)
  | some cell =>
    let opened := !cell.is_open
    let t0 := if opened then some cell.cell_type else none
    let cell' := cell.open'
    let t := if recheck && !cell'.is_open then none else t0
    (f.set loc cell', t)

/-- Fuel-indexed Minefield::open.  Returns none when the fuel runs out before the
flood-fill recursion has finished, otherwise the final minefield and the value
returned by the Rust function.  After the head step, when the opened cell is
Water with no neighbouring mines, open is invoked on each neighbour in order. -/
def openGo (nbr : Point2D → List Point2D) (recheck : Bool) :
    Nat → Minefield → Point2D → Option (Minefield × Option CellType)
  | 0, _, _ => none
  | fuel + 1, f, loc =>
    let pr := openCell recheck f loc
    if pr.2 = some CellType.Water ∧ countNb nbr pr.1 loc = 0 then
      ((nbr loc).foldl
          (fun acc n => acc.bind fun g => (openGo nbr recheck fuel g n).map Prod.fst)
          (some pr.1)).map fun f2 => (f2, pr.2)
    else
      some pr

/-- Sequential flood-fill over a list of locations with fixed fuel per call,
failing as soon as one call fails.  The foldl inside openGo equals this. -/
def openGoList (nbr : Point2D → List Point2D) (recheck : Bool) (fuel : Nat) :
    Minefield → List Point2D → Option Minefield
  | f, [] => some f
  | f, n :: ns =>
    match openGo nbr recheck fuel f n with
    | none => none
    | some (g, _) => openGoList nbr recheck fuel g ns

/-- Number of in-store cells that are not Opened; one more than this is always
enough fuel for the game.rs recursion. -/
def Minefield.unopenedCount (f : Minefield) : Nat :=
  f.data.countP fun c => !c.is_open

/-- Minefield::open from src/src/game.rs, run with sufficient fuel. -/
def Minefield.open' (f : Minefield) (loc : Point2D) : Minefield × Option CellType :=
  (openGo Point2D.neighbours true (f.unopenedCount + 1) f loc).getD (f, none)

/-- Minefield::open as duplicated in src/src/main.rs, run with the same fuel
budget (this recursion does not always terminate; see the termination claims). -/
def Minefield.open_main (f : Minefield) (loc : Point2D) : Minefield × Option CellType :=
  (openGo Point2D.neighbours_main false (f.unopenedCount + 1) f loc).getD (f, none)

/-- Minefield::flag from src/src/game.rs. -/
def Minefield.flag (f : Minefield) (loc : Point2D) : Minefield :=
  match f.get loc with
  | none => f
  | some c => f.set loc ⟨c.cell_type, c.state.toggle_flag⟩

/-- Minefield::reveal_all from src/src/game.rs: open every location in order. -/
def Minefield.reveal_all (f : Minefield) : Minefield :=
  f.data.all_locations.foldl (fun g p => (g.open' p).1) f

/-- Minefield::only_mines_remaining from src/src/game.rs: no in-bounds cell is a
non-open Water cell. -/
def Minefield.only_mines_remaining (f : Minefield) : Bool :=
  ((((List.range f.size.w).flatMap fun x => (List.range f.size.h).map fun y => Point2D.mk x y)
    |>.filterMap f.get)
    |>.filter fun c => !c.is_open && decide (c.cell_type = CellType.Water)).length == 0

/-- Number of Mine cells in the backing store. -/
def Minefield.mineCount (f : Minefield) : Nat :=
  f.data.countP fun c => decide (c.cell_type = CellType.Mine)

/-- Outcome of RandomMineFieldGenerator::generate under a fuel bound: the Rust
panic branches, running out of fuel (the loop did not finish), or a field. -/
inductive GenResult where
  | panicked
  | timeout
  | ok (f : Minefield)
deriving DecidableEq, Repr

/-- The generation loop of RandomMineFieldGenerator::generate from
src/src/game.rs.  The random source is a stream of points, one per iteration
(gen_range on each axis); an out-of-bounds pick would make the Rust unwrap
panic.  A Water pick becomes a Mine; the loop breaks only when the running
count reaches mine_count immediately after a placement. -/
def generateGo (stream : Nat → Point2D) (mine_count : Nat) :
    Nat → Nat → Vec2D Cell → Nat → GenResult
  | 0, _, _, _ => .timeout
  | fuel + 1, i, cells, placed =>
    let loc := stream i
    match cells.get loc with
    | none => .panicked
    | some cell =>
      if cell.cell_type = CellType.Water then
        let cells' := cells.set loc ⟨CellType.Mine, cell.state⟩
        if placed + 1 = mine_count then .ok (Minefield.with_data cells')
        else generateGo stream mine_count fuel (i + 1) cells' (placed + 1)
      else generateGo stream mine_count fuel (i + 1) cells placed

/-- RandomMineFieldGenerator::generate from src/src/game.rs: panic when there
are more mines than cells, otherwise run the loop on an all-default board. -/
def generate (fuel : Nat) (stream : Nat → Point2D) (size : Size2D) (mine_count : Nat) :
    GenResult :=
  if size.w * size.h < mine_count then .panicked
  else generateGo stream mine_count fuel 0 (Vec2D.sized size Cell.default') 0

/-- Evolution relation between two minefields: same size, the same cells are
present, kinds never change, and a state changes only from Closed to Opened.
Every operation derived from Cell::open produces a field evolving from its
input. -/
def Evolves (f g : Minefield) : Prop :=
  g.size = f.size ∧ ∀ p : Point2D,
    (f.get p = none → g.get p = none) ∧
    ∀ c : Cell, f.get p = some c → ∃ c' : Cell, g.get p = some c' ∧
      c'.cell_type = c.cell_type ∧
      (c'.state = c.state ∨ (c.state = CellState.Closed ∧ c'.state = CellState.Opened))

/-- No in-bounds cell of the field is Flagged. -/
def noFlags (f : Minefield) : Prop :=
  ∀ p c, f.get p = some c → c.state ≠ CellState.Flagged

/-- The flood-fill region of a starting coordinate: points reachable from c by
stepping, out of a cell that is Closed, Water and has no neighbouring mines in
the starting field, to any of its neighbours.  The final state of Minefield::open
is characterised by this relation. -/
inductive Reach (nbr : Point2D → List Point2D) (f : Minefield) (c : Point2D) : Point2D → Prop where
  | refl : Reach nbr f c c
  | step {r p : Point2D} {cr : Cell} : Reach nbr f c r → f.get r = some cr →
      cr.state = CellState.Closed → cr.cell_type = CellType.Water →
      countNb nbr f r = 0 → p ∈ nbr r → Reach nbr f c p

/-- The recursion of the given open variant finishes on this input for every
fuel of at least N, always with result r. -/
def openStabilizesAt (nbr : Point2D → List Point2D) (recheck : Bool) (f : Minefield)
    (loc : Point2D) (N : Nat) (r : Minefield × Option CellType) : Prop :=
  ∀ fuel, N ≤ fuel → openGo nbr recheck fuel f loc = some r

/-- The recursion of the given open variant never finishes on this input, no
matter how much fuel it is given: the Rust call would recurse forever. -/
def openDiverges (nbr : Point2D → List Point2D) (recheck : Bool) (f : Minefield)
    (loc : Point2D) : Prop :=
  ∀ fuel, openGo nbr recheck fuel f loc = none

/-- The generation loop never finishes on this input, no matter the fuel. -/
def genDiverges (stream : Nat → Point2D) (size : Size2D) (mine_count : Nat) : Prop :=
  ∀ fuel, generate fuel stream size mine_count = .timeout

/-- 1x1 minefield holding a single Flagged Water cell. -/
def fW1 : Minefield := Minefield.with_data ⟨⟨1, 1⟩, [[⟨.Water, .Flagged⟩]]⟩

/-- 2x1 minefield holding two Flagged Water cells next to each other. -/
def fFlag2 : Minefield := Minefield.with_data ⟨⟨2, 1⟩, [[⟨.Water, .Flagged⟩], [⟨.Water, .Flagged⟩]]⟩

/-- 3x1 all-Water minefield whose middle cell is Flagged, the others Closed. -/
def fRow3 : Minefield :=
  Minefield.with_data ⟨⟨3, 1⟩, [[⟨.Water, .Closed⟩], [⟨.Water, .Flagged⟩], [⟨.Water, .Closed⟩]]⟩

/-- 2x1 all-Water all-Closed minefield. -/
def fW2 : Minefield := Minefield.with_data ⟨⟨2, 1⟩, [[⟨.Water, .Closed⟩], [⟨.Water, .Closed⟩]]⟩

/-- 2x1 minefield with a Closed Mine at the origin and Closed Water next to it. -/
def fM2 : Minefield := Minefield.with_data ⟨⟨2, 1⟩, [[⟨.Mine, .Closed⟩], [⟨.Water, .Closed⟩]]⟩

/-- The constant random stream that always picks the origin. -/
def stream00 : Nat → Point2D := fun _ => ⟨0, 0⟩

/-- The random stream that enumerates the board in the generator's storage
order: pick i is (i / h, i mod h). -/
def streamEnum (h : Nat) : Nat → Point2D := fun i => ⟨i / h, i % h⟩

/-- Board of the given size whose first k locations in storage order are Closed
Mines and the rest default cells: the intermediate states of the generation
loop driven by streamEnum. -/
def minedUpTo (s : Size2D) (k : Nat) : Vec2D Cell :=
  ⟨s, (List.range s.w).map fun x => (List.range s.h).map fun y =>
    if x * s.h + y < k then ⟨CellType.Mine, CellState.Closed⟩ else Cell.default'⟩

example : (Point2D.mk 0 0).neighbours = [⟨0, 1⟩, ⟨1, 0⟩, ⟨1, 1⟩] := by decide
example : (Point2D.mk 0 0).neighbours_main = [⟨1, 0⟩, ⟨0, 1⟩, ⟨1, 1⟩] := by decide
example : (Point2D.mk 1 1).neighbours.length = 8 := by decide
example : (Point2D.mk 1 1).neighbours_main.length = 8 := by decide
example : fW1.open' ⟨0, 0⟩ = (fW1, none) := by decide
example : fW1.open_main ⟨0, 0⟩ = (fW1, some .Water) := by decide
example : fW1.reveal_all = fW1 := by decide
example : (fRow3.open' ⟨0, 0⟩).1.get ⟨2, 0⟩ = some ⟨.Water, .Closed⟩ := by decide
example : (fW2.open' ⟨0, 0⟩).1 = Minefield.with_data ⟨⟨2, 1⟩, [[⟨.Water, .Opened⟩], [⟨.Water, .Opened⟩]]⟩ := by decide
example : generate 5 stream00 ⟨1, 1⟩ 1 = .ok (Minefield.with_data ⟨⟨1, 1⟩, [[⟨.Mine, .Closed⟩]]⟩) := by decide
example : generate 5 stream00 ⟨2, 1⟩ 2 = .timeout := by decide

theorem list_set_self {α : Type} :
    ∀ (l : List α) (i : Nat) (x : α), l.get? i = some x → l.set i x = l
  | [], _, _, h => by simp at h
  | _ :: _, 0, _, h => by simp at h; simp [List.set, h]
  | a :: l, i + 1, x, h => by
      simp only [List.get?] at h
      simp [List.set, list_set_self l i x h]

theorem length_filter_lt {α : Type} (pr : α → Bool) :
    ∀ (l : List α) (x : α), x ∈ l → pr x = false → (l.filter pr).length < l.length
  | a :: l, x, hm, hx => by
      rcases List.mem_cons.1 hm with rfl | hm
      · rw [List.filter_cons, hx]
        exact Nat.lt_succ_of_le (List.length_filter_le pr l)
      · rw [List.filter_cons]
        cases h : pr a with
        | false =>
          simp only [h, Bool.false_eq_true, if_false, List.length_cons]
          exact Nat.lt_succ_of_lt (length_filter_lt pr l x hm hx)
        | true =>
          simp only [h, if_true, List.length_cons]
          exact Nat.succ_lt_succ (length_filter_lt pr l x hm hx)

theorem list_get?_set_self {α : Type} :
    ∀ (l : List α) (i : Nat) (a : α), (l.set i a).get? i = (l.get? i).map fun _ => a
  | [], _, _ => by simp
  | _ :: _, 0, _ => by simp
  | x :: l, i + 1, a => by
      simp only [List.set, List.get?]
      exact list_get?_set_self l i a

theorem list_get?_set_ne {α : Type} :
    ∀ (l : List α) (i j : Nat) (a : α), i ≠ j → (l.set i a).get? j = l.get? j
  | [], _, _, _, _ => by simp
  | _ :: _, 0, 0, _, h => absurd rfl h
  | _ :: _, 0, _ + 1, _, _ => by simp [List.set]
  | _ :: _, _ + 1, 0, _, _ => by simp [List.set]
  | x :: l, i + 1, j + 1, a, h => by
      simp only [List.set, List.get?]
      exact list_get?_set_ne l i j a (fun e => h (by rw [e]))

theorem Vec2D.size_set {α : Type} (v : Vec2D α) (p : Point2D) (a : α) :
    (v.set p a).size = v.size := by
  unfold Vec2D.set
  cases v.data.get? p.x <;> rfl

theorem Vec2D.get_set {α : Type} (v : Vec2D α) (p q : Point2D) (a : α) :
    (v.set p a).get q = if q = p ∧ (v.get p).isSome then some a else v.get q := by
  cases hx : v.data.get? p.x with
  | none =>
    have hveq : v.set p a = v := by unfold Vec2D.set; rw [hx]
    have hp : v.get p = none := by
      unfold Vec2D.get
      rw [hx]
      simp
    rw [hveq, hp]
    simp
  | some row =>
    have hset : v.set p a = ⟨v.size, v.data.set p.x (row.set p.y a)⟩ := by
      unfold Vec2D.set; rw [hx]
    rw [hset]
    show (if Size2D.contains v.size q then
            ((v.data.set p.x (row.set p.y a)).get? q.x).bind fun r => r.get? q.y
          else none) = _
    by_cases hq : q = p
    · subst hq
      by_cases hc : Size2D.contains v.size q
      · have hvq : v.get q = row.get? q.y := by
          unfold Vec2D.get
          rw [if_pos hc, hx]
          rfl
        rw [if_pos hc, list_get?_set_self, hx]
        simp only [Option.map_some', Option.some_bind]
        rw [list_get?_set_self, hvq]
        cases hy : row.get? q.y with
        | none => simp [hy]
        | some c => simp [hy]
      · have hvq : v.get q = none := by
          unfold Vec2D.get
          rw [if_neg hc]
        rw [if_neg hc, hvq]
        simp [hvq]
    · rw [if_neg (by simp [hq] : ¬(q = p ∧ (v.get p).isSome = true))]
      unfold Vec2D.get
      by_cases hc : Size2D.contains v.size q
      · rw [if_pos hc, if_pos hc]
        by_cases hxx : q.x = p.x
        · have hyy : p.y ≠ q.y := by
            intro e
            exact hq (by cases q; cases p; simp_all)
          rw [hxx, list_get?_set_self, hx]
          simp only [Option.map_some', Option.some_bind]
          exact list_get?_set_ne row p.y q.y a hyy
        · rw [list_get?_set_ne v.data p.x q.x _ (fun e => hxx e.symm)]
      · rw [if_neg hc, if_neg hc]

theorem Vec2D.set_get_self {α : Type} {v : Vec2D α} {p : Point2D} {c : α}
    (h : v.get p = some c) : v.set p c = v := by
  unfold Vec2D.get at h
  by_cases hc : Size2D.contains v.size p
  · rw [if_pos hc] at h
    cases hx : v.data.get? p.x with
    | none => rw [hx] at h; simp at h
    | some row =>
      rw [hx] at h
      simp only [Option.some_bind] at h
      show (match v.data.get? p.x with
            | none => v
            | some row => ⟨v.size, v.data.set p.x (row.set p.y c)⟩) = v
      rw [hx]
      simp only
      rw [list_set_self row p.y c h, list_set_self v.data p.x row hx]
  · rw [if_neg hc] at h
    simp at h

theorem Minefield.size_of_set (f : Minefield) (p : Point2D) (c : Cell) :
    (f.set p c).size = f.size :=
  Vec2D.size_set f.data p c

theorem Minefield.get_of_set (f : Minefield) (p q : Point2D) (c : Cell) :
    (f.set p c).get q = if q = p ∧ (f.get p).isSome then some c else f.get q :=
  Vec2D.get_set f.data p q c

theorem Minefield.set_then_get_self {f : Minefield} {p : Point2D} {c : Cell}
    (h : f.get p = some c) : f.set p c = f := by
  unfold Minefield.set
  rw [Vec2D.set_get_self h]

theorem openCell_none {rc : Bool} {f : Minefield} {loc : Point2D}
    (h : f.get loc = none) : openCell rc f loc = (f, none) := by
  unfold openCell
  rw [h]

theorem openCell_opened {rc : Bool} {f : Minefield} {loc : Point2D} {c : Cell}
    (h : f.get loc = some c) (hs : c.state = CellState.Opened) :
    openCell rc f loc = (f, none) := by
  obtain ⟨k, s⟩ := c
  simp only at hs
  subst hs
  unfold openCell
  rw [h]
  simp only [Cell.is_open, Cell.open', CellState.open']
  rw [Minefield.set_then_get_self h]
  simp

theorem openCell_flagged_true {f : Minefield} {loc : Point2D} {c : Cell}
    (h : f.get loc = some c) (hs : c.state = CellState.Flagged) :
    openCell true f loc = (f, none) := by
  obtain ⟨k, s⟩ := c
  simp only at hs
  subst hs
  unfold openCell
  rw [h]
  simp only [Cell.is_open, Cell.open', CellState.open']
  rw [Minefield.set_then_get_self h]
  simp

theorem openCell_flagged_false {f : Minefield} {loc : Point2D} {c : Cell}
    (h : f.get loc = some c) (hs : c.state = CellState.Flagged) :
    openCell false f loc = (f, some c.cell_type) := by
  obtain ⟨k, s⟩ := c
  simp only at hs
  subst hs
  unfold openCell
  rw [h]
  simp only [Cell.is_open, Cell.open', CellState.open']
  rw [Minefield.set_then_get_self h]
  simp

theorem openCell_closed {rc : Bool} {f : Minefield} {loc : Point2D} {c : Cell}
    (h : f.get loc = some c) (hs : c.state = CellState.Closed) :
    openCell rc f loc = (f.set loc ⟨c.cell_type, CellState.Opened⟩, some c.cell_type) := by
  obtain ⟨k, s⟩ := c
  simp only at hs
  subst hs
  unfold openCell
  rw [h]
  simp [Cell.is_open, Cell.open', CellState.open']

theorem openGoList_nil (nbr : Point2D → List Point2D) (rc : Bool) (fuel : Nat) (f : Minefield) :
    openGoList nbr rc fuel f [] = some f := rfl

theorem openGoList_cons (nbr : Point2D → List Point2D) (rc : Bool) (fuel : Nat) (f : Minefield)
    (n : Point2D) (ns : List Point2D) :
    openGoList nbr rc fuel f (n :: ns) =
      match openGo nbr rc fuel f n with
      | none => none
      | some (g, _) => openGoList nbr rc fuel g ns := rfl

theorem foldl_step_none (nbr : Point2D → List Point2D) (rc : Bool) (fuel : Nat) :
    ∀ ns : List Point2D,
      ns.foldl (fun acc n => acc.bind fun g => (openGo nbr rc fuel g n).map Prod.fst) none = none
  | [] => rfl
  | _ :: ns => by
      simp only [List.foldl_cons, Option.none_bind]
      exact foldl_step_none nbr rc fuel ns

theorem foldl_eq_openGoList (nbr : Point2D → List Point2D) (rc : Bool) (fuel : Nat) :
    ∀ (ns : List Point2D) (f : Minefield),
      ns.foldl (fun acc n => acc.bind fun g => (openGo nbr rc fuel g n).map Prod.fst) (some f) =
        openGoList nbr rc fuel f ns
  | [], _ => rfl
  | n :: ns, f => by
      simp only [List.foldl_cons, Option.some_bind, openGoList_cons]
      cases hn : openGo nbr rc fuel f n with
      | none =>
        simp only [Option.map_none']
        exact foldl_step_none nbr rc fuel ns
      | some r =>
        cases r with
        | mk g t =>
          simp only [Option.map_some']
          exact foldl_eq_openGoList nbr rc fuel ns g

theorem openGo_succ (nbr : Point2D → List Point2D) (rc : Bool) (fuel : Nat) (f : Minefield)
    (loc : Point2D) :
    openGo nbr rc (fuel + 1) f loc =
      if (openCell rc f loc).2 = some CellType.Water ∧ countNb nbr (openCell rc f loc).1 loc = 0
      then (openGoList nbr rc fuel (openCell rc f loc).1 (nbr loc)).map
             fun f2 => (f2, (openCell rc f loc).2)
      else some (openCell rc f loc) := by
  show (let pr := openCell rc f loc
        if pr.2 = some CellType.Water ∧ countNb nbr pr.1 loc = 0 then
          ((nbr loc).foldl
              (fun acc n => acc.bind fun g => (openGo nbr rc fuel g n).map Prod.fst)
              (some pr.1)).map fun f2 => (f2, pr.2)
        else some pr) = _
  simp only []
  rw [foldl_eq_openGoList]

theorem list_filter_length_set {α : Type} (pr : α → Bool) :
    ∀ (l : List α) (i : Nat) (x a : α), l.get? i = some x →
      ((l.set i a).filter pr).length + (if pr x then 1 else 0) =
        (l.filter pr).length + (if pr a then 1 else 0)
  | [], _, _, _, h => by simp at h
  | y :: l, 0, x, a, h => by
      simp only [List.get?] at h
      injection h with h
      subst h
      simp only [List.set, List.filter_cons]
      cases hx : pr y <;> cases ha : pr a <;>
        simp only [hx, ha, if_true, if_false, Bool.false_eq_true, List.length_cons] <;> omega
  | y :: l, i + 1, x, a, h => by
      simp only [List.get?] at h
      have ih := list_filter_length_set pr l i x a h
      simp only [List.set, List.filter_cons]
      cases hy : pr y <;>
        simp only [hy, if_true, if_false, Bool.false_eq_true, List.length_cons] <;> omega

theorem list_map_sum_set {α : Type} (fn : α → Nat) :
    ∀ (l : List α) (i : Nat) (x a : α), l.get? i = some x →
      ((l.set i a).map fn).sum + fn x = (l.map fn).sum + fn a
  | [], _, _, _, h => by simp at h
  | y :: l, 0, x, a, h => by
      simp only [List.get?] at h
      injection h with h
      subst h
      simp only [List.set, List.map_cons, List.sum_cons]
      omega
  | y :: l, i + 1, x, a, h => by
      simp only [List.get?] at h
      have ih := list_map_sum_set fn l i x a h
      simp only [List.set, List.map_cons, List.sum_cons]
      omega

theorem Vec2D.countP_set {α : Type} (v : Vec2D α) (p : Point2D) {x : α} (a : α) (pr : α → Bool)
    (h : v.get p = some x) :
    (v.set p a).countP pr + (if pr x then 1 else 0) = v.countP pr + (if pr a then 1 else 0) := by
  unfold Vec2D.get at h
  by_cases hc : Size2D.contains v.size p
  · rw [if_pos hc] at h
    cases hx : v.data.get? p.x with
    | none => rw [hx] at h; simp at h
    | some row =>
      rw [hx] at h
      simp only [Option.some_bind] at h
      have hset : v.set p a = ⟨v.size, v.data.set p.x (row.set p.y a)⟩ := by
        unfold Vec2D.set; rw [hx]
      rw [hset]
      have h1 : ((v.data.set p.x (row.set p.y a)).map fun r => (r.filter pr).length).sum
            + (row.filter pr).length
          = ((v.data.map fun r => (r.filter pr).length)).sum
            + ((row.set p.y a).filter pr).length :=
        list_map_sum_set (fun r => (r.filter pr).length) v.data p.x row (row.set p.y a) hx
      have h2 := list_filter_length_set pr row p.y x a h
      show ((v.data.set p.x (row.set p.y a)).map fun r => (r.filter pr).length).sum
            + (if pr x then 1 else 0)
          = (v.data.map fun r => (r.filter pr).length).sum + (if pr a then 1 else 0)
      omega
  · rw [if_neg hc] at h
    simp at h

theorem Evolves.rfl' (f : Minefield) : Evolves f f :=
  ⟨rfl, fun _ => ⟨fun h => h, fun c hc => ⟨c, hc, rfl, Or.inl rfl⟩⟩⟩

theorem Evolves.trans' {f g k : Minefield} (h1 : Evolves f g) (h2 : Evolves g k) :
    Evolves f k := by
  obtain ⟨hs1, hp1⟩ := h1
  obtain ⟨hs2, hp2⟩ := h2
  refine ⟨hs2.trans hs1, fun p => ⟨fun hn => (hp2 p).1 ((hp1 p).1 hn), fun c hc => ?_⟩⟩
  obtain ⟨c', hc', hk', hst'⟩ := (hp1 p).2 c hc
  obtain ⟨c'', hc'', hk'', hst''⟩ := (hp2 p).2 c' hc'
  refine ⟨c'', hc'', hk''.trans hk', ?_⟩
  rcases hst' with h | ⟨ha, hb⟩
  · rcases hst'' with h' | ⟨ha', hb'⟩
    · exact Or.inl (h'.trans h)
    · rw [h] at ha'
      exact Or.inr ⟨ha', hb'⟩
  · rcases hst'' with h' | ⟨ha', hb'⟩
    · exact Or.inr ⟨ha, h'.trans hb⟩
    · exact Or.inr ⟨ha, hb'⟩

theorem openCell_fst (rc : Bool) (f : Minefield) (loc : Point2D) :
    (openCell rc f loc).1 = match f.get loc with
      | none => f
      | some c => f.set loc c.open' := by
  unfold openCell
  cases f.get loc <;> rfl

theorem evolves_set_open {f : Minefield} {loc : Point2D} {c : Cell}
    (h : f.get loc = some c) : Evolves f (f.set loc c.open') := by
  refine ⟨Minefield.size_of_set f loc c.open', fun p => ⟨fun hn => ?_, fun cx hcx => ?_⟩⟩
  · rw [Minefield.get_of_set]
    rw [if_neg ?_]
    · exact hn
    · rintro ⟨rfl, _⟩
      rw [h] at hn
      simp at hn
  · rw [Minefield.get_of_set]
    by_cases hpl : p = loc
    · subst hpl
      rw [h] at hcx
      injection hcx with e
      subst e
      rw [if_pos ⟨rfl, by rw [h]; rfl⟩]
      refine ⟨c.open', rfl, rfl, ?_⟩
      obtain ⟨k, s⟩ := c
      cases s
      · exact Or.inr ⟨rfl, rfl⟩
      · exact Or.inl rfl
      · exact Or.inl rfl
    · rw [if_neg (by simp [hpl])]
      exact ⟨cx, hcx, rfl, Or.inl rfl⟩

theorem evolves_openCell (rc : Bool) (f : Minefield) (loc : Point2D) :
    Evolves f (openCell rc f loc).1 := by
  rw [openCell_fst]
  cases h : f.get loc with
  | none => exact Evolves.rfl' f
  | some c => exact evolves_set_open h

theorem evolves_openGoList (nbr : Point2D → List Point2D) (rc : Bool) (fuel : Nat)
    (H : ∀ f loc g t, openGo nbr rc fuel f loc = some (g, t) → Evolves f g) :
    ∀ (ns : List Point2D) (f g : Minefield),
      openGoList nbr rc fuel f ns = some g → Evolves f g
  | [], f, g, h => by
      rw [openGoList_nil, Option.some_inj] at h
      rw [← h]
      exact Evolves.rfl' f
  | n :: ns, f, g, h => by
      rw [openGoList_cons] at h
      cases hn : openGo nbr rc fuel f n with
      | none => rw [hn] at h; simp at h
      | some r =>
        rw [hn] at h
        obtain ⟨g1, t⟩ := r
        exact (H f n g1 t hn).trans' (evolves_openGoList nbr rc fuel H ns g1 g h)

theorem evolves_openGo (nbr : Point2D → List Point2D) (rc : Bool) :
    ∀ (fuel : Nat) (f : Minefield) (loc : Point2D) (g : Minefield) (t : Option CellType),
      openGo nbr rc fuel f loc = some (g, t) → Evolves f g := by
  intro fuel
  induction fuel with
  | zero => intro f loc g t h; simp [openGo] at h
  | succ fuel ih =>
    intro f loc g t h
    rw [openGo_succ] at h
    by_cases hcond : (openCell rc f loc).2 = some CellType.Water ∧
        countNb nbr (openCell rc f loc).1 loc = 0
    · rw [if_pos hcond] at h
      cases hl : openGoList nbr rc fuel (openCell rc f loc).1 (nbr loc) with
      | none => rw [hl] at h; simp at h
      | some g2 =>
        rw [hl] at h
        simp only [Option.map_some', Option.some_inj, Prod.mk.injEq] at h
        obtain ⟨hg, ht⟩ := h
        rw [← hg]
        exact (evolves_openCell rc f loc).trans'
          (evolves_openGoList nbr rc fuel ih (nbr loc) (openCell rc f loc).1 g2 hl)
    · rw [if_neg hcond, Option.some_inj] at h
      have he := evolves_openCell rc f loc
      rw [h] at he
      exact he

theorem Evolves.get_none' {f g : Minefield} (h : Evolves f g) {p : Point2D}
    (hn : f.get p = none) : g.get p = none := (h.2 p).1 hn

theorem Evolves.get_some' {f g : Minefield} (h : Evolves f g) {p : Point2D} {c : Cell}
    (hc : f.get p = some c) :
    ∃ c', g.get p = some c' ∧ c'.cell_type = c.cell_type ∧
      (c'.state = c.state ∨ (c.state = CellState.Closed ∧ c'.state = CellState.Opened)) :=
  (h.2 p).2 c hc

theorem Evolves.get_stable {f g : Minefield} (h : Evolves f g) {p : Point2D} {c : Cell}
    (hc : f.get p = some c) (hs : c.state ≠ CellState.Closed) : g.get p = some c := by
  obtain ⟨c', hc', hk, hst⟩ := h.get_some' hc
  rcases hst with he | ⟨ha, _⟩
  · obtain ⟨k, s⟩ := c
    obtain ⟨k', s'⟩ := c'
    simp only at hk he
    rw [hk, he] at hc'
    exact hc'
  · exact absurd ha hs

theorem Evolves.some_src {f g : Minefield} (h : Evolves f g) {p : Point2D} {c' : Cell}
    (hc : g.get p = some c') : ∃ c, f.get p = some c := by
  cases hf : f.get p with
  | none => rw [h.get_none' hf] at hc; cases hc
  | some c => exact ⟨c, rfl⟩

theorem filterMap_mine_length_congr {f g : Minefield} (h : Evolves f g) :
    ∀ l : List Point2D,
      ((l.filterMap g.get).filter fun c => decide (c.cell_type = CellType.Mine)).length =
        ((l.filterMap f.get).filter fun c => decide (c.cell_type = CellType.Mine)).length
  | [] => rfl
  | q :: l => by
      have ih := filterMap_mine_length_congr h l
      simp only [List.filterMap_cons]
      cases hq : f.get q with
      | none =>
        rw [h.get_none' hq]
        exact ih
      | some c =>
        obtain ⟨c', hc', hk, _⟩ := h.get_some' hq
        rw [hc']
        simp only [List.filter_cons, hk]
        cases hm : decide (c.cell_type = CellType.Mine) <;>
          simp only [hm, if_true, if_false, Bool.false_eq_true, List.length_cons] <;> omega

theorem countNb_congr {f g : Minefield} (nbr : Point2D → List Point2D) (h : Evolves f g)
    (loc : Point2D) : countNb nbr g loc = countNb nbr f loc :=
  filterMap_mine_length_congr h (nbr loc)

theorem unopenedCount_openCell_le (rc : Bool) (f : Minefield) (loc : Point2D) :
    (openCell rc f loc).1.unopenedCount ≤ f.unopenedCount := by
  rw [openCell_fst]
  cases h : f.get loc with
  | none => exact Nat.le_refl _
  | some c =>
    obtain ⟨k, s⟩ := c
    cases s with
    | Closed =>
      show ((f.data.set loc ⟨k, CellState.Opened⟩).countP fun c => !c.is_open) ≤
        f.data.countP fun c => !c.is_open
      have hcs := Vec2D.countP_set f.data loc (⟨k, CellState.Opened⟩ : Cell)
        (fun c => !c.is_open) h
      simp [Cell.is_open] at hcs ⊢
      omega
    | Flagged =>
      show ((f.data.set loc ⟨k, CellState.Flagged⟩).countP fun c => !c.is_open) ≤
        f.data.countP fun c => !c.is_open
      have hcs := Vec2D.countP_set f.data loc (⟨k, CellState.Flagged⟩ : Cell)
        (fun c => !c.is_open) h
      simp [Cell.is_open] at hcs ⊢
      omega
    | Opened =>
      show ((f.data.set loc ⟨k, CellState.Opened⟩).countP fun c => !c.is_open) ≤
        f.data.countP fun c => !c.is_open
      have hcs := Vec2D.countP_set f.data loc (⟨k, CellState.Opened⟩ : Cell)
        (fun c => !c.is_open) h
      simp [Cell.is_open] at hcs ⊢
      omega

theorem unopenedCount_openCell_closed {rc : Bool} {f : Minefield} {loc : Point2D} {c : Cell}
    (h : f.get loc = some c) (hs : c.state = CellState.Closed) :
    (openCell rc f loc).1.unopenedCount + 1 = f.unopenedCount := by
  obtain ⟨k, s⟩ := c
  simp only at hs
  subst hs
  rw [openCell_fst, h]
  show ((f.data.set loc ⟨k, CellState.Opened⟩).countP fun c => !c.is_open) + 1 =
    f.data.countP fun c => !c.is_open
  have hcs := Vec2D.countP_set f.data loc (⟨k, CellState.Opened⟩ : Cell)
    (fun c => !c.is_open) h
  simp [Cell.is_open] at hcs ⊢
  omega

theorem unopenedCount_openGoList_le (nbr : Point2D → List Point2D) (rc : Bool) (fuel : Nat)
    (H : ∀ f loc g t, openGo nbr rc fuel f loc = some (g, t) →
      g.unopenedCount ≤ f.unopenedCount) :
    ∀ (ns : List Point2D) (f g : Minefield),
      openGoList nbr rc fuel f ns = some g → g.unopenedCount ≤ f.unopenedCount
  | [], f, g, h => by
      rw [openGoList_nil, Option.some_inj] at h
      rw [← h]
  | n :: ns, f, g, h => by
      rw [openGoList_cons] at h
      cases hn : openGo nbr rc fuel f n with
      | none => rw [hn] at h; simp at h
      | some r =>
        rw [hn] at h
        obtain ⟨g1, t⟩ := r
        exact Nat.le_trans (unopenedCount_openGoList_le nbr rc fuel H ns g1 g h) (H f n g1 t hn)

theorem unopenedCount_openGo_le (nbr : Point2D → List Point2D) (rc : Bool) :
    ∀ (fuel : Nat) (f : Minefield) (loc : Point2D) (g : Minefield) (t : Option CellType),
      openGo nbr rc fuel f loc = some (g, t) → g.unopenedCount ≤ f.unopenedCount := by
  intro fuel
  induction fuel with
  | zero => intro f loc g t h; simp [openGo] at h
  | succ fuel ih =>
    intro f loc g t h
    rw [openGo_succ] at h
    by_cases hcond : (openCell rc f loc).2 = some CellType.Water ∧
        countNb nbr (openCell rc f loc).1 loc = 0
    · rw [if_pos hcond] at h
      cases hl : openGoList nbr rc fuel (openCell rc f loc).1 (nbr loc) with
      | none => rw [hl] at h; simp at h
      | some g2 =>
        rw [hl] at h
        simp only [Option.map_some', Option.some_inj, Prod.mk.injEq] at h
        obtain ⟨hg, _⟩ := h
        rw [← hg]
        exact Nat.le_trans
          (unopenedCount_openGoList_le nbr rc fuel ih (nbr loc) (openCell rc f loc).1 g2 hl)
          (unopenedCount_openCell_le rc f loc)
    · rw [if_neg hcond, Option.some_inj] at h
      have := unopenedCount_openCell_le rc f loc
      rw [h] at this
      exact this

theorem openGoList_fuel_succ (nbr : Point2D → List Point2D) (rc : Bool) (fuel : Nat)
    (H : ∀ f loc r, openGo nbr rc fuel f loc = some r → openGo nbr rc (fuel + 1) f loc = some r) :
    ∀ (ns : List Point2D) (f g : Minefield),
      openGoList nbr rc fuel f ns = some g → openGoList nbr rc (fuel + 1) f ns = some g
  | [], _, _, h => h
  | n :: ns, f, g, h => by
      rw [openGoList_cons] at h
      cases hn : openGo nbr rc fuel f n with
      | none => rw [hn] at h; simp at h
      | some r =>
        rw [hn] at h
        obtain ⟨g1, t⟩ := r
        rw [openGoList_cons, H f n (g1, t) hn]
        exact openGoList_fuel_succ nbr rc fuel H ns g1 g h

theorem openGo_fuel_succ (nbr : Point2D → List Point2D) (rc : Bool) :
    ∀ (fuel : Nat) (f : Minefield) (loc : Point2D) (r : Minefield × Option CellType),
      openGo nbr rc fuel f loc = some r → openGo nbr rc (fuel + 1) f loc = some r := by
  intro fuel
  induction fuel with
  | zero => intro f loc r h; simp [openGo] at h
  | succ fuel ih =>
    intro f loc r h
    rw [openGo_succ] at h
    rw [openGo_succ]
    by_cases hcond : (openCell rc f loc).2 = some CellType.Water ∧
        countNb nbr (openCell rc f loc).1 loc = 0
    · rw [if_pos hcond] at h ⊢
      cases hl : openGoList nbr rc fuel (openCell rc f loc).1 (nbr loc) with
      | none => rw [hl] at h; simp at h
      | some g2 =>
        rw [openGoList_fuel_succ nbr rc fuel ih (nbr loc) (openCell rc f loc).1 g2 hl]
        rw [hl] at h
        exact h
    · rw [if_neg hcond] at h ⊢
      exact h

theorem openGo_fuel_mono (nbr : Point2D → List Point2D) (rc : Bool) {fuel fuel' : Nat}
    (hle : fuel ≤ fuel') :
    ∀ (f : Minefield) (loc : Point2D) (r : Minefield × Option CellType),
      openGo nbr rc fuel f loc = some r → openGo nbr rc fuel' f loc = some r := by
  induction hle with
  | refl => intro f loc r h; exact h
  | step _ ih =>
    intro f loc r h
    exact openGo_fuel_succ nbr rc _ f loc r (ih f loc r h)

theorem openCell_true_water {f : Minefield} {loc : Point2D}
    (h : (openCell true f loc).2 = some CellType.Water) :
    ∃ c, f.get loc = some c ∧ c.state = CellState.Closed ∧ c.cell_type = CellType.Water := by
  cases hg : f.get loc with
  | none => rw [openCell_none hg] at h; simp at h
  | some c =>
    obtain ⟨k, s⟩ := c
    cases s with
    | Closed =>
      rw [openCell_closed hg rfl] at h
      simp only [Option.some_inj] at h
      exact ⟨⟨k, CellState.Closed⟩, rfl, rfl, h⟩
    | Flagged => rw [openCell_flagged_true hg rfl] at h; simp at h
    | Opened => rw [openCell_opened hg rfl] at h; simp at h

theorem openGoList_total (nbr : Point2D → List Point2D) (fuel : Nat)
    (H : ∀ f loc, f.unopenedCount < fuel → ∃ r, openGo nbr true fuel f loc = some r) :
    ∀ (ns : List Point2D) (f : Minefield), f.unopenedCount < fuel →
      ∃ g, openGoList nbr true fuel f ns = some g ∧ g.unopenedCount ≤ f.unopenedCount
  | [], f, _ => ⟨f, openGoList_nil nbr true fuel f, Nat.le_refl _⟩
  | n :: ns, f, hf => by
      obtain ⟨r, hr⟩ := H f n hf
      obtain ⟨g1, t⟩ := r
      have hd := unopenedCount_openGo_le nbr true fuel f n g1 t hr
      obtain ⟨g, hg, hgle⟩ :=
        openGoList_total nbr fuel H ns g1 (Nat.lt_of_le_of_lt hd hf)
      refine ⟨g, ?_, Nat.le_trans hgle hd⟩
      rw [openGoList_cons, hr]
      exact hg

theorem openGo_total (nbr : Point2D → List Point2D) :
    ∀ (fuel : Nat) (f : Minefield) (loc : Point2D),
      f.unopenedCount < fuel → ∃ r, openGo nbr true fuel f loc = some r := by
  intro fuel
  induction fuel with
  | zero => intro f loc h; omega
  | succ fuel ih =>
    intro f loc h
    rw [openGo_succ]
    by_cases hcond : (openCell true f loc).2 = some CellType.Water ∧
        countNb nbr (openCell true f loc).1 loc = 0
    · rw [if_pos hcond]
      obtain ⟨c, hg, hs, hk⟩ := openCell_true_water hcond.1
      have hdec : (openCell true f loc).1.unopenedCount + 1 = f.unopenedCount :=
        unopenedCount_openCell_closed hg hs
      have hlt : (openCell true f loc).1.unopenedCount < fuel := by omega
      obtain ⟨g, hgl, _⟩ := openGoList_total nbr fuel ih (nbr loc) (openCell true f loc).1 hlt
      rw [hgl]
      exact ⟨(g, (openCell true f loc).2), rfl⟩
    · rw [if_neg hcond]
      exact ⟨openCell true f loc, rfl⟩

theorem open'_eq_openGo (f : Minefield) (loc : Point2D) :
    openGo Point2D.neighbours true (f.unopenedCount + 1) f loc = some (f.open' loc) := by
  obtain ⟨r, hr⟩ :=
    openGo_total Point2D.neighbours (f.unopenedCount + 1) f loc (Nat.lt_succ_self _)
  unfold Minefield.open'
  rw [hr]
  rfl

theorem openGo_eq_open' (f : Minefield) (loc : Point2D) {fuel : Nat}
    (h : f.unopenedCount < fuel) :
    openGo Point2D.neighbours true fuel f loc = some (f.open' loc) :=
  openGo_fuel_mono Point2D.neighbours true h f loc (f.open' loc) (open'_eq_openGo f loc)

theorem cellstate_open_ne_closed (s : CellState) : s.open' ≠ CellState.Closed := by
  cases s <;> simp [CellState.open']

theorem openCell_fst_get_self {rc : Bool} {f : Minefield} {loc : Point2D} {c : Cell}
    (hc : f.get loc = some c) :
    (openCell rc f loc).1.get loc = some c.open' := by
  rw [openCell_fst, hc, Minefield.get_of_set, if_pos ⟨rfl, by rw [hc]; rfl⟩]

theorem openGo_target (nbr : Point2D → List Point2D) (rc : Bool) (fuel : Nat) (f : Minefield)
    (loc : Point2D) (g : Minefield) (t : Option CellType)
    (hgo : openGo nbr rc fuel f loc = some (g, t)) (c : Cell) (hc : f.get loc = some c) :
    g.get loc = some ⟨c.cell_type, c.state.open'⟩ := by
  cases fuel with
  | zero => simp [openGo] at hgo
  | succ fuel =>
    rw [openGo_succ] at hgo
    have hf1 : (openCell rc f loc).1.get loc = some c.open' := openCell_fst_get_self hc
    by_cases hcond : (openCell rc f loc).2 = some CellType.Water ∧
        countNb nbr (openCell rc f loc).1 loc = 0
    · rw [if_pos hcond] at hgo
      cases hl : openGoList nbr rc fuel (openCell rc f loc).1 (nbr loc) with
      | none => rw [hl] at hgo; simp at hgo
      | some g2 =>
        rw [hl] at hgo
        simp only [Option.map_some', Option.some_inj, Prod.mk.injEq] at hgo
        obtain ⟨hg, _⟩ := hgo
        have hev := evolves_openGoList nbr rc fuel (evolves_openGo nbr rc fuel)
          (nbr loc) (openCell rc f loc).1 g2 hl
        have hst := hev.get_stable hf1 (cellstate_open_ne_closed c.state)
        rw [← hg]
        exact hst
    · rw [if_neg hcond, Option.some_inj] at hgo
      have hge : g = (openCell rc f loc).1 := by rw [hgo]
      rw [hge]
      exact hf1

theorem openGoList_nonclosed (nbr : Point2D → List Point2D) (rc : Bool) (fuel : Nat) :
    ∀ (ns : List Point2D) (f g : Minefield), openGoList nbr rc fuel f ns = some g →
      ∀ n ∈ ns, ∀ cn, g.get n = some cn → cn.state ≠ CellState.Closed
  | [], _, _, _, n, hn => by simp at hn
  | m :: ns, f, g, h, n, hn => by
      rw [openGoList_cons] at h
      cases hm : openGo nbr rc fuel f m with
      | none => rw [hm] at h; simp at h
      | some r =>
        rw [hm] at h
        obtain ⟨g1, t⟩ := r
        rcases List.mem_cons.1 hn with rfl | hn'
        · intro cn hcn
          cases hfn : f.get n with
          | none =>
            have h1 : g1.get n = none := (evolves_openGo nbr rc fuel f n g1 t hm).get_none' hfn
            have h2 : g.get n = none :=
              (evolves_openGoList nbr rc fuel (evolves_openGo nbr rc fuel) ns g1 g h).get_none' h1
            rw [h2] at hcn
            cases hcn
          | some c =>
            have h1 : g1.get n = some ⟨c.cell_type, c.state.open'⟩ :=
              openGo_target nbr rc fuel f n g1 t hm c hfn
            have h2 : g.get n = some ⟨c.cell_type, c.state.open'⟩ :=
              (evolves_openGoList nbr rc fuel (evolves_openGo nbr rc fuel) ns g1 g h).get_stable
                h1 (cellstate_open_ne_closed c.state)
            rw [h2] at hcn
            injection hcn with e
            rw [← e]
            exact cellstate_open_ne_closed c.state
        · exact openGoList_nonclosed nbr rc fuel ns g1 g h n hn'

theorem openCell_get_ne {rc : Bool} {g : Minefield} {loc p : Point2D}
    (h : (openCell rc g loc).1.get p ≠ g.get p) : p = loc := by
  by_contra hne
  apply h
  rw [openCell_fst]
  cases hg : g.get loc with
  | none => rfl
  | some c => rw [Minefield.get_of_set, if_neg (by simp [hne])]

theorem reach_prepend (nbr : Point2D → List Point2D) (f : Minefield) {loc n p : Point2D}
    {c : Cell} (hc : f.get loc = some c) (hs : c.state = CellState.Closed)
    (hk : c.cell_type = CellType.Water) (hcnt : countNb nbr f loc = 0) (hn : n ∈ nbr loc)
    (hr : Reach nbr f n p) : Reach nbr f loc p := by
  induction hr with
  | refl => exact Reach.step Reach.refl hc hs hk hcnt hn
  | step _ hg hs2 hk2 hcnt2 hmem ih => exact Reach.step ih hg hs2 hk2 hcnt2 hmem

theorem openGoList_sound (nbr : Point2D → List Point2D) (f0 : Minefield) (fuel : Nat)
    (H : ∀ g loc g' t, Evolves f0 g → openGo nbr true fuel g loc = some (g', t) →
      ∀ p, g'.get p ≠ g.get p → Reach nbr f0 loc p) :
    ∀ (ns : List Point2D) (g g' : Minefield), Evolves f0 g →
      openGoList nbr true fuel g ns = some g' →
      ∀ p, g'.get p ≠ g.get p → ∃ n ∈ ns, Reach nbr f0 n p
  | [], g, g', _, h, p, hne => by
      rw [openGoList_nil, Option.some_inj] at h
      rw [← h] at hne
      exact absurd rfl hne
  | n :: ns, g, g', hev, h, p, hne => by
      rw [openGoList_cons] at h
      cases hm : openGo nbr true fuel g n with
      | none => rw [hm] at h; simp at h
      | some r =>
        rw [hm] at h
        obtain ⟨g1, t⟩ := r
        by_cases h1 : g1.get p = g.get p
        · have hne1 : g'.get p ≠ g1.get p := by rw [h1]; exact hne
          obtain ⟨m, hmem, hr⟩ := openGoList_sound nbr f0 fuel H ns g1 g'
            (hev.trans' (evolves_openGo nbr true fuel g n g1 t hm)) h p hne1
          exact ⟨m, List.mem_cons_of_mem n hmem, hr⟩
        · exact ⟨n, List.mem_cons_self n ns, H g n g1 t hev hm p h1⟩

theorem openGo_sound (nbr : Point2D → List Point2D) (f0 : Minefield) :
    ∀ (fuel : Nat) (g : Minefield) (loc : Point2D) (g' : Minefield) (t : Option CellType),
      Evolves f0 g → openGo nbr true fuel g loc = some (g', t) →
      ∀ p, g'.get p ≠ g.get p → Reach nbr f0 loc p := by
  intro fuel
  induction fuel with
  | zero => intro g loc g' t _ hgo; simp [openGo] at hgo
  | succ fuel ih =>
    intro g loc g' t hev hgo p hne
    rw [openGo_succ] at hgo
    by_cases hcond : (openCell true g loc).2 = some CellType.Water ∧
        countNb nbr (openCell true g loc).1 loc = 0
    · rw [if_pos hcond] at hgo
      cases hl : openGoList nbr true fuel (openCell true g loc).1 (nbr loc) with
      | none => rw [hl] at hgo; simp at hgo
      | some g2 =>
        rw [hl] at hgo
        simp only [Option.map_some', Option.some_inj, Prod.mk.injEq] at hgo
        obtain ⟨hg, _⟩ := hgo
        obtain ⟨c, hgc, hcs, hck⟩ := openCell_true_water hcond.1
        have hev1 : Evolves f0 (openCell true g loc).1 :=
          hev.trans' (evolves_openCell true g loc)
        obtain ⟨c0, hc0⟩ := hev.some_src hgc
        obtain ⟨c1, hc1, hk1, hst1⟩ := hev.get_some' hc0
        rw [hgc] at hc1
        injection hc1 with e
        subst e
        have hc0s : c0.state = CellState.Closed := by
          rcases hst1 with he | ⟨_, hb⟩
          · rw [← he, hcs]
          · rw [hb] at hcs
            cases hcs
        have hc0k : c0.cell_type = CellType.Water := by rw [← hk1, hck]
        have hcnt0 : countNb nbr f0 loc = 0 := by
          rw [← countNb_congr nbr hev1 loc]
          exact hcond.2
        by_cases h1 : (openCell true g loc).1.get p = g.get p
        · have hne2 : g2.get p ≠ (openCell true g loc).1.get p := by
            rw [hg, h1]
            exact hne
          obtain ⟨n, hmem, hr⟩ := openGoList_sound nbr f0 fuel ih (nbr loc)
            (openCell true g loc).1 g2 hev1 hl p hne2
          exact reach_prepend nbr f0 hc0 hc0s hc0k hcnt0 hmem hr
        · have hploc : p = loc := openCell_get_ne h1
          rw [hploc]
          exact Reach.refl
    · rw [if_neg hcond, Option.some_inj] at hgo
      have hploc : p = loc := by
        apply @openCell_get_ne true g loc p
        rw [hgo]
        exact hne
      rw [hploc]
      exact Reach.refl

theorem openGoList_saturates (nbr : Point2D → List Point2D) (f0 : Minefield) (fuel : Nat)
    (H : ∀ g loc g' t, Evolves f0 g → openGo nbr true fuel g loc = some (g', t) →
      ∀ r cr cr', g.get r = some cr → cr.state = CellState.Closed →
        g'.get r = some cr' → cr'.state = CellState.Opened →
        cr'.cell_type = CellType.Water → countNb nbr f0 r = 0 →
        ∀ n ∈ nbr r, ∀ cn, g'.get n = some cn → cn.state ≠ CellState.Closed) :
    ∀ (ns : List Point2D) (g g' : Minefield), Evolves f0 g →
      openGoList nbr true fuel g ns = some g' →
      ∀ r cr cr', g.get r = some cr → cr.state = CellState.Closed →
        g'.get r = some cr' → cr'.state = CellState.Opened →
        cr'.cell_type = CellType.Water → countNb nbr f0 r = 0 →
        ∀ n ∈ nbr r, ∀ cn, g'.get n = some cn → cn.state ≠ CellState.Closed
  | [], g, g', _, h, r, cr, cr', hgr, hcrs, hgr', hcrs', _, _, n, _, cn, _ => by
      rw [openGoList_nil, Option.some_inj] at h
      subst h
      rw [hgr] at hgr'
      injection hgr' with e
      rw [← e] at hcrs'
      rw [hcrs] at hcrs'
      cases hcrs'
  | m :: ns, g, g', hev, h, r, cr, cr', hgr, hcrs, hgr', hcrs', hcrk', hcnt, n, hn, cn, hcn => by
      rw [openGoList_cons] at h
      cases hm : openGo nbr true fuel g m with
      | none => rw [hm] at h; simp at h
      | some rr =>
        rw [hm] at h
        obtain ⟨g1, t⟩ := rr
        have hevm : Evolves g g1 := evolves_openGo nbr true fuel g m g1 t hm
        have hev1 : Evolves f0 g1 := hev.trans' hevm
        obtain ⟨cr1, hcr1, hk1, hst1⟩ := hevm.get_some' hgr
        rcases hst1 with hsame | ⟨_, hopened⟩
        · exact openGoList_saturates nbr f0 fuel H ns g1 g' hev1 h r cr1 cr' hcr1
            (by rw [hsame]; exact hcrs) hgr' hcrs' hcrk' hcnt n hn cn hcn
        · have hevt : Evolves g1 g' :=
            evolves_openGoList nbr true fuel (evolves_openGo nbr true fuel) ns g1 g' h
          obtain ⟨c2, hc2, hk2, _⟩ := hevt.get_some' hcr1
          rw [hgr'] at hc2
          injection hc2 with e2
          subst e2
          have hkw : cr1.cell_type = CellType.Water := by
            rw [← hk2]
            exact hcrk'
          have hsat := H g m g1 t hev hm r cr cr1 hgr hcrs hcr1 hopened hkw hcnt
          obtain ⟨cn1, hcn1⟩ := hevt.some_src hcn
          have hcn1n := hsat n hn cn1 hcn1
          have hstab := hevt.get_stable hcn1 hcn1n
          rw [hstab] at hcn
          injection hcn with e3
          rw [← e3]
          exact hcn1n

theorem openGo_saturates (nbr : Point2D → List Point2D) (f0 : Minefield) :
    ∀ (fuel : Nat) (g : Minefield) (loc : Point2D) (g' : Minefield) (t : Option CellType),
      Evolves f0 g → openGo nbr true fuel g loc = some (g', t) →
      ∀ r cr cr', g.get r = some cr → cr.state = CellState.Closed →
        g'.get r = some cr' → cr'.state = CellState.Opened →
        cr'.cell_type = CellType.Water → countNb nbr f0 r = 0 →
        ∀ n ∈ nbr r, ∀ cn, g'.get n = some cn → cn.state ≠ CellState.Closed := by
  intro fuel
  induction fuel with
  | zero => intro g loc g' t _ hgo; simp [openGo] at hgo
  | succ fuel ih =>
    intro g loc g' t hev hgo r cr cr' hgr hcrs hgr' hcrs' hcrk' hcnt n hn cn hcn
    rw [openGo_succ] at hgo
    by_cases hcond : (openCell true g loc).2 = some CellType.Water ∧
        countNb nbr (openCell true g loc).1 loc = 0
    · rw [if_pos hcond] at hgo
      cases hl : openGoList nbr true fuel (openCell true g loc).1 (nbr loc) with
      | none => rw [hl] at hgo; simp at hgo
      | some g2 =>
        rw [hl] at hgo
        simp only [Option.map_some', Option.some_inj, Prod.mk.injEq] at hgo
        obtain ⟨hg, _⟩ := hgo
        rw [hg] at hl
        by_cases hrloc : r = loc
        · subst hrloc
          exact openGoList_nonclosed nbr true fuel (nbr r) (openCell true g r).1 g' hl n hn cn hcn
        · have hg1r : (openCell true g loc).1.get r = some cr := by
            rw [openCell_fst]
            cases hgl : g.get loc with
            | none => exact hgr
            | some cc =>
              rw [Minefield.get_of_set, if_neg (by simp [hrloc])]
              exact hgr
          exact openGoList_saturates nbr f0 fuel ih (nbr loc) (openCell true g loc).1 g'
            (hev.trans' (evolves_openCell true g loc)) hl r cr cr' hg1r hcrs hgr' hcrs'
            hcrk' hcnt n hn cn hcn
    · rw [if_neg hcond, Option.some_inj] at hgo
      have hge : g' = (openCell true g loc).1 := by rw [hgo]
      subst hge
      by_cases hrloc : r = loc
      · subst hrloc
        exfalso
        apply hcond
        have hco : (openCell true g r).1.get r = some cr.open' := openCell_fst_get_self hgr
        rw [hgr'] at hco
        injection hco with e3
        have hkind : cr.cell_type = CellType.Water := by
          have hkk : cr'.cell_type = cr.cell_type := by rw [e3]; rfl
          rw [← hkk]
          exact hcrk'
        constructor
        · rw [openCell_closed hgr hcrs]
          simp only
          rw [hkind]
        · rw [countNb_congr nbr (hev.trans' (evolves_openCell true g r)) r]
          exact hcnt
      · have hsame : (openCell true g loc).1.get r = g.get r := by
          rw [openCell_fst]
          cases hgl : g.get loc with
          | none => rfl
          | some cc => rw [Minefield.get_of_set, if_neg (by simp [hrloc])]
        rw [hsame, hgr] at hgr'
        injection hgr' with e
        rw [← e] at hcrs'
        rw [hcrs] at hcrs'
        cases hcrs'

theorem countNb_zero_no_mine {nbr : Point2D → List Point2D} {f : Minefield} {r : Point2D}
    (h : countNb nbr f r = 0) {p : Point2D} {cp : Cell} (hmem : p ∈ nbr r)
    (hcp : f.get p = some cp) : cp.cell_type ≠ CellType.Mine := by
  unfold countNb at h
  rw [List.length_eq_zero] at h
  have hmem2 : cp ∈ (nbr r).filterMap f.get := List.mem_filterMap.2 ⟨p, hmem, hcp⟩
  have hno := List.filter_eq_nil_iff.1 h cp hmem2
  simpa using hno

theorem openGo_characterize (nbr : Point2D → List Point2D) (f : Minefield) (c : Point2D)
    (cc : Cell) (hc : f.get c = some cc) (hcs : cc.state = CellState.Closed)
    (hck : cc.cell_type = CellType.Water) (hcn : countNb nbr f c = 0)
    {fuel : Nat} {g : Minefield} {t : Option CellType}
    (hgo : openGo nbr true fuel f c = some (g, t)) :
    ∀ p cp, f.get p = some cp →
      (Reach nbr f c p → g.get p = some ⟨cp.cell_type, cp.state.open'⟩) ∧
      (¬ Reach nbr f c p → g.get p = some cp) := by
  have hev : Evolves f g := evolves_openGo nbr true fuel f c g t hgo
  have hcomp : ∀ p, Reach nbr f c p → ∀ cp, f.get p = some cp →
      cp.state = CellState.Closed →
      ∃ op, g.get p = some op ∧ op.state = CellState.Opened ∧
        op.cell_type = cp.cell_type := by
    intro p hr
    induction hr with
    | refl =>
      intro cp hcp hcps
      rw [hc] at hcp
      injection hcp with e
      subst e
      have htg := openGo_target nbr true fuel f c g t hgo cc hc
      refine ⟨⟨cc.cell_type, cc.state.open'⟩, htg, ?_, rfl⟩
      show cc.state.open' = CellState.Opened
      rw [hcs]
      rfl
    | step hr2 hgr2 hs2 hk2 hcnt2 hmem ih =>
      intro cp hcp hcps
      obtain ⟨opr, hopr, hoprs, hoprk⟩ := ih _ hgr2 hs2
      have hsat := openGo_saturates nbr f fuel f c g t (Evolves.rfl' f) hgo _ _ opr
        hgr2 hs2 hopr hoprs (by rw [hoprk]; exact hk2) hcnt2
      obtain ⟨cp', hcp', hkp', hstp'⟩ := hev.get_some' hcp
      have hne := hsat _ hmem cp' hcp'
      rcases hstp' with he | ⟨_, hb⟩
      · exact absurd (he.trans hcps) hne
      · exact ⟨cp', hcp', hb, hkp'⟩
  intro p cp hcp
  constructor
  · intro hr
    obtain ⟨k, s⟩ := cp
    cases s with
    | Closed =>
      obtain ⟨op, hop, hops, hopk⟩ := hcomp p hr ⟨k, CellState.Closed⟩ hcp rfl
      obtain ⟨k2, s2⟩ := op
      simp only at hops hopk
      subst hops
      subst hopk
      exact hop
    | Flagged => exact hev.get_stable hcp (by simp [CellState.open'])
    | Opened => exact hev.get_stable hcp (by simp [CellState.open'])
  · intro hnr
    by_cases hchg : g.get p = f.get p
    · rw [hchg]
      exact hcp
    · exact absurd (openGo_sound nbr f fuel f c g t (Evolves.rfl' f) hgo p hchg) hnr

theorem openGo_main_fFlag2_none :
    ∀ fuel, openGo Point2D.neighbours_main false fuel fFlag2 ⟨0, 0⟩ = none ∧
      openGo Point2D.neighbours_main false fuel fFlag2 ⟨1, 0⟩ = none := by
  intro fuel
  induction fuel with
  | zero => exact ⟨rfl, rfl⟩
  | succ fuel ih =>
    constructor
    · rw [openGo_succ]
      have h1 : openCell false fFlag2 ⟨0, 0⟩ = (fFlag2, some CellType.Water) := by decide
      rw [h1]
      have h2 : countNb Point2D.neighbours_main (fFlag2, some CellType.Water).1 ⟨0, 0⟩ = 0 := by
        decide
      rw [if_pos ⟨rfl, h2⟩]
      have hn : Point2D.neighbours_main ⟨0, 0⟩ = [⟨1, 0⟩, ⟨0, 1⟩, ⟨1, 1⟩] := by decide
      show (openGoList Point2D.neighbours_main false fuel fFlag2
        (Point2D.neighbours_main ⟨0, 0⟩)).map (fun f2 => (f2, some CellType.Water)) = none
      rw [hn, openGoList_cons, ih.2]
      rfl
    · rw [openGo_succ]
      have h1 : openCell false fFlag2 ⟨1, 0⟩ = (fFlag2, some CellType.Water) := by decide
      rw [h1]
      have h2 : countNb Point2D.neighbours_main (fFlag2, some CellType.Water).1 ⟨1, 0⟩ = 0 := by
        decide
      rw [if_pos ⟨rfl, h2⟩]
      have hn : Point2D.neighbours_main ⟨1, 0⟩ = [⟨0, 0⟩, ⟨2, 0⟩, ⟨0, 1⟩, ⟨1, 1⟩, ⟨2, 1⟩] := by
        decide
      show (openGoList Point2D.neighbours_main false fuel fFlag2
        (Point2D.neighbours_main ⟨1, 0⟩)).map (fun f2 => (f2, some CellType.Water)) = none
      rw [hn, openGoList_cons, ih.1]
      rfl

/-- C1 (amended): the src/src/game.rs Minefield::open always terminates: for every
minefield and coordinate, any fuel larger than the number of non-Opened cells
makes the recursion finish, always with the same result Minefield.open'.  (The
src/src/main.rs duplicate of open, which the claim also names, can recurse
forever on adjacent Flagged zero-count cells; see the counterexample.) -/
theorem C1_open_terminates (f : Minefield) (loc : Point2D) (fuel : Nat)
    (h : f.unopenedCount < fuel) :
    openGo Point2D.neighbours true fuel f loc = some (f.open' loc) :=
  openGo_eq_open' f loc h

theorem C1_witness :
    fW2.unopenedCount < 3 ∧
    openGo Point2D.neighbours true 3 fW2 ⟨0, 0⟩ = some (fW2.open' ⟨0, 0⟩) :=
  ⟨by decide, C1_open_terminates fW2 ⟨0, 0⟩ 3 (by decide)⟩

/-- C1 counterexample: the Minefield::open duplicated in src/src/main.rs does not
terminate for every minefield: on the 2x1 field whose two Water cells are both
Flagged (and so have zero neighbouring mines), opening the origin recurses
between the two Flagged cells forever, because the main.rs body treats a
Flagged cell as a freshly opened Water cell and cascades from it on every
visit.  No amount of fuel makes the recursion finish. -/
theorem C1_counterexample : openDiverges Point2D.neighbours_main false fFlag2 ⟨0, 0⟩ :=
  fun fuel => (openGo_main_fFlag2_none fuel).1

/-- C2 (amended): for the src/src/game.rs Minefield::open, opening a coordinate
that is out of bounds or holds a Flagged cell returns none and leaves the
minefield unchanged.  (The src/src/main.rs duplicate, which the claim also
names, violates this; see the counterexample.) -/
theorem C2_flagged_oob_noop (f : Minefield) (loc : Point2D)
    (h : f.get loc = none ∨ ∃ c, f.get loc = some c ∧ c.state = CellState.Flagged) :
    f.open' loc = (f, none) := by
  unfold Minefield.open'
  rcases h with hn | ⟨c, hcell, hfl⟩
  · rw [openGo_succ, openCell_none hn, if_neg (by simp)]
    rfl
  · rw [openGo_succ, openCell_flagged_true hcell hfl, if_neg (by simp)]
    rfl

theorem C2_witness :
    (fW1.get ⟨0, 0⟩ = none ∨ ∃ c, fW1.get ⟨0, 0⟩ = some c ∧ c.state = CellState.Flagged) ∧
    fW1.open' ⟨0, 0⟩ = (fW1, none) :=
  ⟨Or.inr ⟨⟨CellType.Water, CellState.Flagged⟩, by decide, rfl⟩,
    C2_flagged_oob_noop fW1 ⟨0, 0⟩
      (Or.inr ⟨⟨CellType.Water, CellState.Flagged⟩, by decide, rfl⟩)⟩

/-- C2 counterexample: the Minefield::open duplicated in src/src/main.rs, on the
1x1 minefield holding a single Flagged Water cell, returns Some(Water) instead
of None (for every sufficient fuel), because it lacks the re-check that resets
the opened type when the cell stayed Flagged. -/
theorem C2_counterexample :
    fW1.get ⟨0, 0⟩ = some ⟨CellType.Water, CellState.Flagged⟩ ∧
    openStabilizesAt Point2D.neighbours_main false fW1 ⟨0, 0⟩ 2 (fW1, some CellType.Water) ∧
    fW1.open_main ⟨0, 0⟩ = (fW1, some CellType.Water) := by
  refine ⟨by decide, ?_, by decide⟩
  intro fuel hfuel
  exact openGo_fuel_mono Point2D.neighbours_main false hfuel fW1 ⟨0, 0⟩
    (fW1, some CellType.Water) (by decide)

/-- C4 (amended): opening an in-bounds Closed Water cell c with zero neighbouring
mines applies Cell::open exactly to the cells reachable from c through Closed
zero-count Water cells (the flood region together with its border): every
reachable cell gets its state opened (Closed becomes Opened; Flagged and
already-Opened cells on the region boundary keep their state, which is where
the claim as stated fails), every unreachable cell is untouched, and no Mine
cell is ever reachable. -/
theorem C4_flood_fill (f : Minefield) (c : Point2D) (cc : Cell)
    (hc : f.get c = some cc) (hcs : cc.state = CellState.Closed)
    (hck : cc.cell_type = CellType.Water) (hcn : f.count_neighbours c = 0)
    (p : Point2D) (cp : Cell) (hp : f.get p = some cp) :
    (Reach Point2D.neighbours f c p →
      (f.open' c).1.get p = some ⟨cp.cell_type, cp.state.open'⟩) ∧
    (¬ Reach Point2D.neighbours f c p → (f.open' c).1.get p = some cp) ∧
    (cp.cell_type = CellType.Mine → ¬ Reach Point2D.neighbours f c p) := by
  have hgo : openGo Point2D.neighbours true (f.unopenedCount + 1) f c =
      some ((f.open' c).1, (f.open' c).2) := open'_eq_openGo f c
  have hchar := openGo_characterize Point2D.neighbours f c cc hc hcs hck hcn hgo p cp hp
  have hnm : ∀ q, Reach Point2D.neighbours f c q → ∀ cq, f.get q = some cq →
      cq.cell_type ≠ CellType.Mine := by
    intro q hr
    induction hr with
    | refl =>
      intro cq hq
      rw [hc] at hq
      injection hq with e
      rw [← e, hck]
      simp
    | step hr2 hgr2 hs2 hk2 hcnt2 hmem ih =>
      intro cq hq
      exact countNb_zero_no_mine hcnt2 hmem hq
  exact ⟨hchar.1, hchar.2, fun hm hr => hnm p hr cp hp hm⟩

theorem C4_witness :
    (Reach Point2D.neighbours fW2 ⟨0, 0⟩ ⟨1, 0⟩ →
      (fW2.open' ⟨0, 0⟩).1.get ⟨1, 0⟩ = some ⟨CellType.Water, CellState.Opened⟩) ∧
    (¬ Reach Point2D.neighbours fW2 ⟨0, 0⟩ ⟨1, 0⟩ →
      (fW2.open' ⟨0, 0⟩).1.get ⟨1, 0⟩ = some ⟨CellType.Water, CellState.Closed⟩) ∧
    (CellType.Water = CellType.Mine → ¬ Reach Point2D.neighbours fW2 ⟨0, 0⟩ ⟨1, 0⟩) :=
  C4_flood_fill fW2 ⟨0, 0⟩ ⟨CellType.Water, CellState.Closed⟩ (by decide) rfl rfl
    (by decide) ⟨1, 0⟩ ⟨CellType.Water, CellState.Closed⟩ (by decide)

/-- C4 counterexample: on the 3x1 all-Water minefield with the middle cell
Flagged, every cell has zero neighbouring mines, so the connected
zero-neighbour-mine region of the origin contains all three cells, and the
rightmost cell borders the region; yet opening the origin leaves the rightmost
cell Closed (and the middle cell Flagged), because the Flagged cell blocks the
cascade.  This refutes the claim that open(c) opens every Water cell of the
region and every bordering cell. -/
theorem C4_counterexample :
    fRow3.count_neighbours ⟨0, 0⟩ = 0 ∧
    fRow3.count_neighbours ⟨1, 0⟩ = 0 ∧
    fRow3.count_neighbours ⟨2, 0⟩ = 0 ∧
    (⟨1, 0⟩ : Point2D) ∈ (Point2D.mk 0 0).neighbours ∧
    (⟨2, 0⟩ : Point2D) ∈ (Point2D.mk 1 0).neighbours ∧
    fRow3.get ⟨2, 0⟩ = some ⟨CellType.Water, CellState.Closed⟩ ∧
    (fRow3.open' ⟨0, 0⟩).1.get ⟨2, 0⟩ = some ⟨CellType.Water, CellState.Closed⟩ ∧
    (fRow3.open' ⟨0, 0⟩).1.get ⟨1, 0⟩ = some ⟨CellType.Water, CellState.Flagged⟩ := by
  decide

/-- C7: RandomMineFieldGenerator::generate with more mines than cells reports the
fatal configuration error (the Rust panic) and never returns a minefield, for
every fuel and every random stream. -/
theorem C7_generate_panics (size : Size2D) (mine_count : Nat) (fuel : Nat)
    (stream : Nat → Point2D) (h : size.w * size.h < mine_count) :
    generate fuel stream size mine_count = GenResult.panicked := by
  unfold generate
  rw [if_pos h]

theorem C7_witness :
    (1 * 1 < 2) ∧ generate 10 stream00 ⟨1, 1⟩ 2 = GenResult.panicked :=
  ⟨by decide, C7_generate_panics ⟨1, 1⟩ 2 10 stream00 (by decide)⟩

theorem mem_all_locations {f : Minefield} {p : Point2D} {c : Cell}
    (h : f.get p = some c) : p ∈ f.data.all_locations := by
  unfold Minefield.get Vec2D.get at h
  by_cases hc : Size2D.contains f.data.size p
  · unfold Vec2D.all_locations
    simp only [Size2D.contains, Bool.and_eq_true, decide_eq_true_eq] at hc
    refine List.mem_flatMap.2 ⟨p.x, List.mem_range.2 hc.1, ?_⟩
    refine List.mem_map.2 ⟨p.y, List.mem_range.2 hc.2, ?_⟩
    cases p
    rfl
  · rw [if_neg hc] at h
    cases h

theorem open'_fst_evolves (f : Minefield) (loc : Point2D) : Evolves f (f.open' loc).1 :=
  evolves_openGo Point2D.neighbours true (f.unopenedCount + 1) f loc (f.open' loc).1
    (f.open' loc).2 (open'_eq_openGo f loc)

theorem open'_get_target {f : Minefield} {loc : Point2D} {c : Cell}
    (h : f.get loc = some c) :
    (f.open' loc).1.get loc = some ⟨c.cell_type, c.state.open'⟩ :=
  openGo_target Point2D.neighbours true (f.unopenedCount + 1) f loc (f.open' loc).1
    (f.open' loc).2 (open'_eq_openGo f loc) c h

theorem reveal_fold_spec (f : Minefield) :
    ∀ (ls : List Point2D) (g : Minefield), Evolves f g →
      (∀ q cq, f.get q = some cq →
        q ∈ ls ∨ g.get q = some ⟨cq.cell_type, cq.state.open'⟩) →
      ∀ q cq, f.get q = some cq →
        (ls.foldl (fun g p => (g.open' p).1) g).get q = some ⟨cq.cell_type, cq.state.open'⟩
  | [], g, _, hinv, q, cq, hq => by
      simp only [List.foldl_nil]
      rcases hinv q cq hq with h | h
      · simp at h
      · exact h
  | loc :: ls, g, hev, hinv, q, cq, hq => by
      simp only [List.foldl_cons]
      apply reveal_fold_spec f ls (g.open' loc).1 (hev.trans' (open'_fst_evolves g loc))
        ?_ q cq hq
      intro q' cq' hq'
      rcases hinv q' cq' hq' with hmem | hdone
      · rcases List.mem_cons.1 hmem with rfl | hmem'
        · right
          obtain ⟨c1, hc1, hk1, hst1⟩ := hev.get_some' hq'
          rw [open'_get_target hc1]
          rcases hst1 with he | ⟨ha, hb⟩
          · rw [hk1, he]
          · rw [hk1, ha, hb]
            simp [CellState.open']
        · exact Or.inl hmem'
      · exact Or.inr ((open'_fst_evolves g loc).get_stable hdone
          (cellstate_open_ne_closed cq'.state))

theorem reveal_all_get (f : Minefield) (p : Point2D) (c : Cell) (h : f.get p = some c) :
    f.reveal_all.get p = some ⟨c.cell_type, c.state.open'⟩ := by
  unfold Minefield.reveal_all
  exact reveal_fold_spec f f.data.all_locations f (Evolves.rfl' f)
    (fun q cq hq => Or.inl (mem_all_locations hq)) p c h

/-- C3 (amended): after Minefield::reveal_all, every cell's state is its original
state with CellState::open applied: Closed cells end Opened, already-Opened
cells stay Opened, but Flagged cells stay Flagged (which is where the claim as
stated fails); kinds are unchanged. -/
theorem C3_reveal_all (f : Minefield) (p : Point2D) (c : Cell) (h : f.get p = some c) :
    f.reveal_all.get p = some ⟨c.cell_type, c.state.open'⟩ :=
  reveal_all_get f p c h

theorem C3_witness :
    fW2.get ⟨0, 0⟩ = some ⟨CellType.Water, CellState.Closed⟩ ∧
    fW2.reveal_all.get ⟨0, 0⟩ = some ⟨CellType.Water, CellState.Opened⟩ :=
  ⟨by decide, C3_reveal_all fW2 ⟨0, 0⟩ ⟨CellType.Water, CellState.Closed⟩ (by decide)⟩

/-- C3 counterexample: reveal_all opens cells through Minefield::open, whose
Flagged guard keeps a Flagged cell Flagged; on the 1x1 minefield with one
Flagged Water cell reveal_all changes nothing, so not every cell ends Opened. -/
theorem C3_counterexample :
    fW1.reveal_all = fW1 ∧
    fW1.get ⟨0, 0⟩ = some ⟨CellType.Water, CellState.Flagged⟩ := by
  decide

/-- C9: Minefield::open, Minefield::flag and Minefield::reveal_all never change a
cell's kind; only states change. -/
theorem C9_kinds_immutable (f : Minefield) (loc p : Point2D) (c : Cell)
    (h : f.get p = some c) :
    (∃ c', (f.open' loc).1.get p = some c' ∧ c'.cell_type = c.cell_type) ∧
    (∃ c', (f.flag loc).get p = some c' ∧ c'.cell_type = c.cell_type) ∧
    (∃ c', f.reveal_all.get p = some c' ∧ c'.cell_type = c.cell_type) := by
  refine ⟨?_, ?_, ?_⟩
  · obtain ⟨c', hc', hk, _⟩ := (open'_fst_evolves f loc).get_some' h
    exact ⟨c', hc', hk⟩
  · unfold Minefield.flag
    cases hl : f.get loc with
    | none => exact ⟨c, h, rfl⟩
    | some cl =>
      by_cases hpl : p = loc
      · subst hpl
        rw [h] at hl
        injection hl with e
        subst e
        refine ⟨⟨c.cell_type, c.state.toggle_flag⟩, ?_, rfl⟩
        rw [Minefield.get_of_set, if_pos ⟨rfl, by rw [h]; rfl⟩]
      · refine ⟨c, ?_, rfl⟩
        rw [Minefield.get_of_set, if_neg (by simp [hpl])]
        exact h
  · exact ⟨⟨c.cell_type, c.state.open'⟩, reveal_all_get f p c h, rfl⟩

theorem C9_witness :
    (∃ c', (fW2.open' ⟨0, 0⟩).1.get ⟨1, 0⟩ = some c' ∧ c'.cell_type = CellType.Water) ∧
    (∃ c', (fW2.flag ⟨0, 0⟩).get ⟨1, 0⟩ = some c' ∧ c'.cell_type = CellType.Water) ∧
    (∃ c', fW2.reveal_all.get ⟨1, 0⟩ = some c' ∧ c'.cell_type = CellType.Water) :=
  C9_kinds_immutable fW2 ⟨0, 0⟩ ⟨1, 0⟩ ⟨CellType.Water, CellState.Closed⟩ (by decide)

/-- C5: only_mines_remaining is true exactly when every in-bounds cell whose kind
is not Mine (i.e. every Water cell) is Opened. -/
theorem C5_only_mines_remaining (f : Minefield) :
    f.only_mines_remaining = true ↔
      ∀ p c, f.get p = some c → c.cell_type ≠ CellType.Mine →
        c.state = CellState.Opened := by
  unfold Minefield.only_mines_remaining
  rw [beq_iff_eq, List.length_eq_zero, List.filter_eq_nil_iff]
  constructor
  · intro h p c hc hm
    have hmem : c ∈ ((List.range f.size.w).flatMap fun x =>
        (List.range f.size.h).map fun y => Point2D.mk x y).filterMap f.get :=
      List.mem_filterMap.2 ⟨p, mem_all_locations hc, hc⟩
    have hpred := h c hmem
    have hw : c.cell_type = CellType.Water := by
      cases hk : c.cell_type
      · rfl
      · exact absurd hk hm
    by_contra hst
    apply hpred
    have h1 : c.is_open = false := by
      unfold Cell.is_open
      exact decide_eq_false hst
    rw [Bool.and_eq_true]
    exact ⟨by rw [h1]; rfl, by rw [hw]; exact decide_eq_true rfl⟩
  · intro h c hmem hpred
    obtain ⟨p, _, hget⟩ := List.mem_filterMap.1 hmem
    rw [Bool.and_eq_true] at hpred
    obtain ⟨h1, h2⟩ := hpred
    have hw : c.cell_type = CellType.Water := of_decide_eq_true h2
    have hop : c.state = CellState.Opened := h p c hget (by rw [hw]; simp)
    have : c.is_open = true := by
      unfold Cell.is_open
      exact decide_eq_true hop
    rw [this] at h1
    cases h1

theorem C5_witness :
    fW2.only_mines_remaining = true ↔
      ∀ p c, fW2.get p = some c → c.cell_type ≠ CellType.Mine →
        c.state = CellState.Opened :=
  C5_only_mines_remaining fW2

theorem neighbours_length_le (p : Point2D) : p.neighbours.length ≤ 8 := by
  unfold Point2D.neighbours
  have hmem : p ∈ (((([0, 1, 2] : List Nat).flatMap fun a =>
        ([0, 1, 2] : List Nat).map fun b => Point2D.mk a b).map
          fun o => Point2D.mk (o.x + p.x) (o.y + p.y)).filter
            (fun q => 0 < q.x && 0 < q.y)).map fun q => Point2D.mk (q.x - 1) (q.y - 1) := by
    refine List.mem_map.2 ⟨Point2D.mk (1 + p.x) (1 + p.y), ?_, ?_⟩
    · refine List.mem_filter.2 ⟨List.mem_map.2 ⟨Point2D.mk 1 1, by decide, rfl⟩, ?_⟩
      simp only [Bool.and_eq_true, decide_eq_true_eq]
      omega
    · cases p with
      | mk px py =>
        simp only [Point2D.mk.injEq]
        omega
  have hlt := length_filter_lt (fun q => decide (q ≠ p)) _ p hmem (by simp)
  have hlen : ((((([0, 1, 2] : List Nat).flatMap fun a =>
        ([0, 1, 2] : List Nat).map fun b => Point2D.mk a b).map
          fun o => Point2D.mk (o.x + p.x) (o.y + p.y)).filter
            (fun q => 0 < q.x && 0 < q.y)).map fun q => Point2D.mk (q.x - 1) (q.y - 1)).length
      ≤ 9 := by
    rw [List.length_map]
    have h1 := List.length_filter_le (fun q : Point2D => (decide (0 < q.x) && decide (0 < q.y)))
      ((([0, 1, 2] : List Nat).flatMap fun a =>
        ([0, 1, 2] : List Nat).map fun b => Point2D.mk a b).map
          fun o => Point2D.mk (o.x + p.x) (o.y + p.y))
    rw [List.length_map] at h1
    have h2 : (([0, 1, 2] : List Nat).flatMap fun a =>
        ([0, 1, 2] : List Nat).map fun b => Point2D.mk a b).length = 9 := by decide
    omega
  omega

theorem neighbours_interior (a b : Nat) :
    (Point2D.mk (a + 1) (b + 1)).neighbours.length = 8 := by
  unfold Point2D.neighbours
  have e1 : ¬(2 + a = a + 1) := by omega
  have e2 : ¬(2 + b = b + 1) := by omega
  simp [List.filter_cons, Point2D.mk.injEq, Nat.add_sub_cancel, e1, e2]

/-- C10: Point2D::neighbours yields 3 coordinates at the origin and 8 at any
coordinate with both components at least 1, and count_neighbours, which counts
Mine cells among the in-bounds neighbours, is always at most 8. -/
theorem C10_neighbour_counts :
    (Point2D.mk 0 0).neighbours.length = 3 ∧
    (∀ p : Point2D, 1 ≤ p.x → 1 ≤ p.y → p.neighbours.length = 8) ∧
    ∀ (f : Minefield) (loc : Point2D), f.count_neighbours loc ≤ 8 := by
  refine ⟨by decide, ?_, ?_⟩
  · intro p hx hy
    obtain ⟨px, py⟩ := p
    simp only at hx hy
    obtain ⟨a, rfl⟩ : ∃ a, px = a + 1 := ⟨px - 1, by omega⟩
    obtain ⟨b, rfl⟩ : ∃ b, py = b + 1 := ⟨py - 1, by omega⟩
    exact neighbours_interior a b
  · intro f loc
    unfold Minefield.count_neighbours countNb
    have h1 := List.length_filter_le (fun c => decide (c.cell_type = CellType.Mine))
      ((Point2D.neighbours loc).filterMap f.get)
    have h2 := List.length_filterMap_le f.get (Point2D.neighbours loc)
    have h3 := neighbours_length_le loc
    omega

theorem C10_witness :
    (Point2D.mk 2 3).neighbours.length = 8 ∧ fW2.count_neighbours ⟨0, 0⟩ ≤ 8 :=
  ⟨C10_neighbour_counts.2.1 ⟨2, 3⟩ (by decide) (by decide),
    C10_neighbour_counts.2.2 fW2 ⟨0, 0⟩⟩

theorem generateGo_succ (stream : Nat → Point2D) (mc fuel i : Nat) (cells : Vec2D Cell)
    (placed : Nat) :
    generateGo stream mc (fuel + 1) i cells placed =
      match cells.get (stream i) with
      | none => GenResult.panicked
      | some cell =>
        if cell.cell_type = CellType.Water then
          if placed + 1 = mc then
            GenResult.ok (Minefield.with_data (cells.set (stream i) ⟨CellType.Mine, cell.state⟩))
          else generateGo stream mc fuel (i + 1)
            (cells.set (stream i) ⟨CellType.Mine, cell.state⟩) (placed + 1)
        else generateGo stream mc fuel (i + 1) cells placed := rfl

theorem list_get?_replicate {α : Type} :
    ∀ (n i : Nat) (a : α), i < n → (List.replicate n a).get? i = some a
  | 0, _, _, h => absurd h (Nat.not_lt_zero _)
  | _ + 1, 0, _, _ => rfl
  | n + 1, i + 1, a, h => list_get?_replicate n i a (Nat.lt_of_succ_lt_succ h)

theorem sized_get {α : Type} (s : Size2D) (d : α) (p : Point2D) (hx : p.x < s.w)
    (hy : p.y < s.h) : (Vec2D.sized s d).get p = some d := by
  unfold Vec2D.sized Vec2D.get
  rw [if_pos (by
    simp only [Size2D.contains, Bool.and_eq_true, decide_eq_true_eq]
    exact ⟨hx, hy⟩ : Size2D.contains s p = true)]
  rw [list_get?_replicate s.w p.x _ hx]
  simp only [Option.some_bind]
  rw [list_get?_replicate s.h p.y d hy]

theorem countP_sized_water (s : Size2D) :
    (Vec2D.sized s Cell.default').countP (fun c => decide (c.cell_type = CellType.Mine)) = 0 := by
  unfold Vec2D.sized Vec2D.countP
  rw [List.map_replicate]
  have hfil : ((List.replicate s.h Cell.default').filter
      fun c => decide (c.cell_type = CellType.Mine)) = [] := by
    rw [List.filter_eq_nil_iff]
    intro a ha
    rw [List.eq_of_mem_replicate ha]
    decide
  rw [hfil]
  simp

theorem countP_mine_set_water {cells : Vec2D Cell} {p : Point2D} {cell : Cell}
    (hg : cells.get p = some cell) (hw : cell.cell_type = CellType.Water) (st : CellState) :
    (cells.set p ⟨CellType.Mine, st⟩).countP (fun c => decide (c.cell_type = CellType.Mine)) =
      (cells.countP fun c => decide (c.cell_type = CellType.Mine)) + 1 := by
  have hset := Vec2D.countP_set cells p (⟨CellType.Mine, st⟩ : Cell)
    (fun c => decide (c.cell_type = CellType.Mine)) hg
  obtain ⟨k, s⟩ := cell
  simp only at hw
  subst hw
  simp at hset
  omega

theorem generateGo_ok (stream : Nat → Point2D) (mc : Nat) :
    ∀ (fuel i : Nat) (cells : Vec2D Cell) (placed : Nat) (f : Minefield),
      generateGo stream mc fuel i cells placed = GenResult.ok f →
      (cells.countP fun c => decide (c.cell_type = CellType.Mine)) = placed →
      f.mineCount = mc ∧ f.size = cells.size := by
  intro fuel
  induction fuel with
  | zero => intro i cells placed f h; simp [generateGo] at h
  | succ fuel ih =>
    intro i cells placed f h hinv
    rw [generateGo_succ] at h
    cases hg : cells.get (stream i) with
    | none => rw [hg] at h; cases h
    | some cell =>
      rw [hg] at h
      replace h : (if cell.cell_type = CellType.Water then
          if placed + 1 = mc then
            GenResult.ok (Minefield.with_data (cells.set (stream i) ⟨CellType.Mine, cell.state⟩))
          else generateGo stream mc fuel (i + 1)
            (cells.set (stream i) ⟨CellType.Mine, cell.state⟩) (placed + 1)
        else generateGo stream mc fuel (i + 1) cells placed) = GenResult.ok f := h
      by_cases hw : cell.cell_type = CellType.Water
      · rw [if_pos hw] at h
        have hset := countP_mine_set_water hg hw cell.state
        by_cases hpc : placed + 1 = mc
        · rw [if_pos hpc] at h
          injection h with e
          subst e
          constructor
          · show (cells.set (stream i) ⟨CellType.Mine, cell.state⟩).countP
              (fun c => decide (c.cell_type = CellType.Mine)) = mc
            omega
          · exact Vec2D.size_set cells (stream i) _
        · rw [if_neg hpc] at h
          have hr := ih (i + 1) (cells.set (stream i) ⟨CellType.Mine, cell.state⟩)
            (placed + 1) f h (by omega)
          rw [Vec2D.size_set] at hr
          exact hr
      · rw [if_neg hw] at h
        exact ih (i + 1) cells placed f h hinv

theorem generate_ok (fuel : Nat) (stream : Nat → Point2D) (size : Size2D) (mc : Nat)
    (f : Minefield) (h : generate fuel stream size mc = GenResult.ok f) :
    f.mineCount = mc ∧ f.size = size := by
  unfold generate at h
  by_cases hg : size.w * size.h < mc
  · rw [if_pos hg] at h
    cases h
  · rw [if_neg hg] at h
    have := generateGo_ok stream mc fuel 0 (Vec2D.sized size Cell.default') 0 f h
      (countP_sized_water size)
    rwa [show (Vec2D.sized size Cell.default').size = size from rfl] at this

theorem generateGo_progress (s : Size2D) (hh : 0 < s.h) (mc : Nat) (hmc : mc ≤ s.w * s.h) :
    ∀ (remaining k : Nat) (cells : Vec2D Cell),
      k + remaining = mc → 0 < remaining →
      (∀ j, k ≤ j → j < s.w * s.h → cells.get ⟨j / s.h, j % s.h⟩ = some Cell.default') →
      ∃ f, generateGo (streamEnum s.h) mc remaining k cells k = GenResult.ok f := by
  intro remaining
  induction remaining with
  | zero => intro k cells _ h0; omega
  | succ remaining ih =>
    intro k cells hk _ hfresh
    have hkmc : k < mc := by omega
    have hkwh : k < s.w * s.h := Nat.lt_of_lt_of_le hkmc hmc
    have hcell : cells.get ⟨k / s.h, k % s.h⟩ = some Cell.default' :=
      hfresh k (Nat.le_refl k) hkwh
    rw [generateGo_succ]
    have hstream : streamEnum s.h k = ⟨k / s.h, k % s.h⟩ := rfl
    rw [hstream, hcell]
    show ∃ f, (if k + 1 = mc then
        GenResult.ok (Minefield.with_data
          (cells.set ⟨k / s.h, k % s.h⟩ ⟨CellType.Mine, Cell.default'.state⟩))
      else generateGo (streamEnum s.h) mc remaining (k + 1)
        (cells.set ⟨k / s.h, k % s.h⟩ ⟨CellType.Mine, Cell.default'.state⟩) (k + 1)) =
      GenResult.ok f
    by_cases hpc : k + 1 = mc
    · rw [if_pos hpc]
      exact ⟨_, rfl⟩
    · rw [if_neg hpc]
      apply ih (k + 1) (cells.set ⟨k / s.h, k % s.h⟩ ⟨CellType.Mine, Cell.default'.state⟩)
        (by omega) (by omega)
      intro j hj hjwh
      have hne : (⟨j / s.h, j % s.h⟩ : Point2D) ≠ ⟨k / s.h, k % s.h⟩ := by
        intro he
        injection he with e1 e2
        have : j = k := by
          have hdj := Nat.div_add_mod j s.h
          have hdk := Nat.div_add_mod k s.h
          rw [e1, e2] at hdj
          omega
        omega
      rw [Vec2D.get_set, if_neg (by simp [hne])]
      exact hfresh j (by omega) hjwh

theorem genloop :
    ∀ fuel i, generateGo stream00 0 fuel i
      ⟨⟨1, 1⟩, [[⟨CellType.Mine, CellState.Closed⟩]]⟩ 1 = GenResult.timeout
  | 0, _ => rfl
  | fuel + 1, i => genloop fuel (i + 1)

/-- C6 (amended): whenever the generation loop returns a minefield the field has
exactly mine_count Mine cells (the rest Water) and the requested extent, and
for 1 ≤ mine_count ≤ width*height on a positive extent there is a stream of
random picks (and a fuel budget) on which the loop terminates.  Termination for
EVERY stream, as claimed, is false: see the counterexample. -/
theorem C6_generate :
    (∀ (fuel : Nat) (stream : Nat → Point2D) (size : Size2D) (mc : Nat) (f : Minefield),
        generate fuel stream size mc = GenResult.ok f → f.mineCount = mc ∧ f.size = size) ∧
    (∀ (size : Size2D) (mc : Nat), 0 < size.w → 0 < size.h → 0 < mc →
        mc ≤ size.w * size.h →
        ∃ (stream : Nat → Point2D) (fuel : Nat) (f : Minefield),
          generate fuel stream size mc = GenResult.ok f) := by
  constructor
  · exact generate_ok
  · intro size mc hw hh hmc hle
    have hfresh : ∀ j, 0 ≤ j → j < size.w * size.h →
        (Vec2D.sized size Cell.default').get ⟨j / size.h, j % size.h⟩ = some Cell.default' := by
      intro j _ hjwh
      have hjx : j / size.h < size.w := by
        rw [Nat.div_lt_iff_lt_mul hh]
        exact hjwh
      exact sized_get size Cell.default' ⟨j / size.h, j % size.h⟩ hjx (Nat.mod_lt _ hh)
    obtain ⟨f, hf⟩ := generateGo_progress size hh mc hle mc 0 (Vec2D.sized size Cell.default')
      (by omega) hmc hfresh
    refine ⟨streamEnum size.h, mc, f, ?_⟩
    unfold generate
    rw [if_neg (by omega)]
    exact hf

theorem C6_witness :
    ((Minefield.with_data ⟨⟨1, 1⟩, [[⟨CellType.Mine, CellState.Closed⟩]]⟩).mineCount = 1 ∧
      (Minefield.with_data ⟨⟨1, 1⟩, [[⟨CellType.Mine, CellState.Closed⟩]]⟩).size = ⟨1, 1⟩) ∧
    ∃ (stream : Nat → Point2D) (fuel : Nat) (f : Minefield),
      generate fuel stream ⟨1, 1⟩ 1 = GenResult.ok f :=
  ⟨C6_generate.1 5 stream00 ⟨1, 1⟩ 1
      (Minefield.with_data ⟨⟨1, 1⟩, [[⟨CellType.Mine, CellState.Closed⟩]]⟩) (by decide),
    C6_generate.2 ⟨1, 1⟩ 1 (by decide) (by decide) (by decide) (by decide)⟩

/-- C6 counterexample: with mine_count = 0 (which satisfies the claim's
hypothesis 0 ≤ width*height) the loop's break test mines_placed == mine_count
runs only right after a placement, so it can never see the value 0: on the 1x1
board the single cell is mined on the first iteration, and every following
iteration rejects the Mine pick forever.  generate never returns for any fuel,
already for the in-bounds constant stream, refuting termination for every
minefield/stream. -/
theorem C6_counterexample : genDiverges stream00 ⟨1, 1⟩ 0 := by
  intro fuel
  cases fuel with
  | zero => rfl
  | succ fuel =>
    show generateGo stream00 0 fuel 1 ⟨⟨1, 1⟩, [[⟨CellType.Mine, CellState.Closed⟩]]⟩ 1 =
      GenResult.timeout
    exact genloop fuel 1

theorem noFlags_evolves {f g : Minefield} (hev : Evolves f g) (hnf : noFlags f) :
    noFlags g := by
  intro p c' hc'
  obtain ⟨c, hc⟩ := hev.some_src hc'
  obtain ⟨c'', hc'', _, hst⟩ := hev.get_some' hc
  rw [hc'] at hc''
  injection hc'' with e
  subst e
  rcases hst with he | ⟨_, hb⟩
  · rw [he]
    exact hnf p c hc
  · rw [hb]
    simp

theorem openCell_rc_eq {f : Minefield} {loc : Point2D} (hnf : noFlags f) :
    openCell false f loc = openCell true f loc := by
  cases hg : f.get loc with
  | none => rw [openCell_none hg, openCell_none hg]
  | some c =>
    obtain ⟨k, s⟩ := c
    cases s with
    | Closed => rw [openCell_closed hg rfl, openCell_closed hg rfl]
    | Flagged => exact absurd rfl (hnf loc _ hg)
    | Opened => rw [openCell_opened hg rfl, openCell_opened hg rfl]

theorem openGoList_rc_eq (nbr : Point2D → List Point2D) (fuel : Nat)
    (H : ∀ g loc, noFlags g → openGo nbr false fuel g loc = openGo nbr true fuel g loc) :
    ∀ (ns : List Point2D) (g : Minefield), noFlags g →
      openGoList nbr false fuel g ns = openGoList nbr true fuel g ns
  | [], _, _ => rfl
  | n :: ns, g, hnf => by
      rw [openGoList_cons, openGoList_cons, H g n hnf]
      cases hm : openGo nbr true fuel g n with
      | none => rfl
      | some r =>
        obtain ⟨g1, t⟩ := r
        exact openGoList_rc_eq nbr fuel H ns g1
          (noFlags_evolves (evolves_openGo nbr true fuel g n g1 t hm) hnf)

theorem openGo_rc_eq (nbr : Point2D → List Point2D) :
    ∀ (fuel : Nat) (f : Minefield) (loc : Point2D), noFlags f →
      openGo nbr false fuel f loc = openGo nbr true fuel f loc := by
  intro fuel
  induction fuel with
  | zero => intro f loc _; rfl
  | succ fuel ih =>
    intro f loc hnf
    rw [openGo_succ, openGo_succ, openCell_rc_eq hnf]
    by_cases hcond : (openCell true f loc).2 = some CellType.Water ∧
        countNb nbr (openCell true f loc).1 loc = 0
    · rw [if_pos hcond, if_pos hcond]
      rw [openGoList_rc_eq nbr fuel (fun g l hg => ih g l hg) (nbr loc)
        (openCell true f loc).1 (noFlags_evolves (evolves_openCell true f loc) hnf)]
    · rw [if_neg hcond, if_neg hcond]

theorem mem_neighbours_iff (p q : Point2D) :
    q ∈ p.neighbours ↔
      (q ≠ p ∧ p.x ≤ q.x + 1 ∧ q.x ≤ p.x + 1 ∧ p.y ≤ q.y + 1 ∧ q.y ≤ p.y + 1) := by
  unfold Point2D.neighbours
  constructor
  · intro h
    rw [List.mem_filter] at h
    obtain ⟨h1, hne⟩ := h
    have hnep : q ≠ p := of_decide_eq_true hne
    refine ⟨hnep, ?_⟩
    rw [List.mem_map] at h1
    obtain ⟨r, hr, hrq⟩ := h1
    rw [List.mem_filter] at hr
    obtain ⟨hr1, hr2⟩ := hr
    rw [List.mem_map] at hr1
    obtain ⟨o, ho, hor⟩ := hr1
    rw [Bool.and_eq_true, decide_eq_true_eq, decide_eq_true_eq] at hr2
    simp only [List.mem_flatMap, List.mem_map, List.mem_cons, List.not_mem_nil,
      or_false] at ho
    obtain ⟨a, ha, b, hb, hab⟩ := ho
    obtain ⟨rx, ry⟩ := r
    obtain ⟨qx, qy⟩ := q
    rw [← hab] at hor
    injection hor with e1 e2
    injection hrq with e3 e4
    simp only at hr2 e1 e2 e3 e4 ⊢
    omega
  · intro hbox
    obtain ⟨hne, h1, h2, h3, h4⟩ := hbox
    obtain ⟨qx, qy⟩ := q
    replace h1 : p.x ≤ qx + 1 := h1
    replace h2 : qx ≤ p.x + 1 := h2
    replace h3 : p.y ≤ qy + 1 := h3
    replace h4 : qy ≤ p.y + 1 := h4
    rw [List.mem_filter]
    refine ⟨?_, decide_eq_true hne⟩
    rw [List.mem_map]
    refine ⟨Point2D.mk (qx + 1 - p.x + p.x) (qy + 1 - p.y + p.y), ?_, ?_⟩
    · rw [List.mem_filter]
      constructor
      · rw [List.mem_map]
        refine ⟨Point2D.mk (qx + 1 - p.x) (qy + 1 - p.y), ?_, rfl⟩
        simp only [List.mem_flatMap, List.mem_map, List.mem_cons, List.not_mem_nil,
          or_false]
        exact ⟨qx + 1 - p.x, by omega, qy + 1 - p.y, by omega, rfl⟩
      · simp only [Bool.and_eq_true, decide_eq_true_eq]
        constructor
        · show 0 < qx + 1 - p.x + p.x
          omega
        · show 0 < qy + 1 - p.y + p.y
          omega
    · show Point2D.mk (qx + 1 - p.x + p.x - 1) (qy + 1 - p.y + p.y - 1) = Point2D.mk qx qy
      simp only [Point2D.mk.injEq]
      omega

theorem mem_neighbours_main_iff (p q : Point2D) :
    q ∈ p.neighbours_main ↔
      (q ≠ p ∧ p.x ≤ q.x + 1 ∧ q.x ≤ p.x + 1 ∧ p.y ≤ q.y + 1 ∧ q.y ≤ p.y + 1) := by
  unfold Point2D.neighbours_main
  constructor
  · intro h
    rw [List.mem_map] at h
    obtain ⟨r, hr, hrq⟩ := h
    rw [List.mem_filter] at hr
    obtain ⟨hr1, hr2⟩ := hr
    rw [Bool.and_eq_true, decide_eq_true_eq, decide_eq_true_eq] at hr2
    simp only [List.mem_cons, List.not_mem_nil, or_false] at hr1
    obtain ⟨rx, ry⟩ := r
    obtain ⟨qx, qy⟩ := q
    injection hrq with e3 e4
    simp only [Point2D.mk.injEq] at hr1
    have hnep : ¬(qx = p.x ∧ qy = p.y) := by
      intro hc
      simp only at hr2 e3 e4
      omega
    constructor
    · intro he
      apply hnep
      rw [← he]
      exact ⟨rfl, rfl⟩
    · simp only at hr2 e3 e4 ⊢
      omega
  · intro hbox
    obtain ⟨hne, h1, h2, h3, h4⟩ := hbox
    rw [List.mem_map]
    refine ⟨Point2D.mk (q.x + 1) (q.y + 1), ?_, ?_⟩
    · rw [List.mem_filter]
      constructor
      · have hnexy : ¬(q.x = p.x ∧ q.y = p.y) := by
          intro hc
          apply hne
          obtain ⟨qx, qy⟩ := q
          obtain ⟨px, py⟩ := p
          simp only at hc
          simp only [Point2D.mk.injEq]
          exact hc
        simp only [List.mem_cons, List.not_mem_nil, or_false, Point2D.mk.injEq]
        omega
      · simp only [Bool.and_eq_true, decide_eq_true_eq]
        constructor
        · show 0 < q.x + 1
          omega
        · show 0 < q.y + 1
          omega
    · obtain ⟨qx, qy⟩ := q
      show Point2D.mk (qx + 1 - 1) (qy + 1 - 1) = Point2D.mk qx qy
      simp only [Point2D.mk.injEq]
      omega

theorem base9_nodup :
    (([0, 1, 2] : List Nat).flatMap fun a =>
      ([0, 1, 2] : List Nat).map fun b => Point2D.mk a b).Nodup := by decide

theorem neighbours_nodup (p : Point2D) : p.neighbours.Nodup := by
  unfold Point2D.neighbours
  apply List.Nodup.filter
  apply List.Nodup.map_on
  · intro x hx y hy hxy
    rw [List.mem_filter] at hx hy
    obtain ⟨a, b⟩ := x
    obtain ⟨c, d⟩ := y
    have hx2 : 0 < a ∧ 0 < b := by
      have h2 := hx.2
      simp only [Bool.and_eq_true, decide_eq_true_eq] at h2
      exact h2
    have hy2 : 0 < c ∧ 0 < d := by
      have h2 := hy.2
      simp only [Bool.and_eq_true, decide_eq_true_eq] at h2
      exact h2
    injection hxy with e1 e2
    replace e1 : a - 1 = c - 1 := e1
    replace e2 : b - 1 = d - 1 := e2
    simp only [Point2D.mk.injEq]
    omega
  · apply List.Nodup.filter
    refine List.Nodup.map ?_ base9_nodup
    intro u v huv
    obtain ⟨ux, uy⟩ := u
    obtain ⟨vx, vy⟩ := v
    injection huv with e1 e2
    replace e1 : ux + p.x = vx + p.x := e1
    replace e2 : uy + p.y = vy + p.y := e2
    simp only [Point2D.mk.injEq]
    omega

theorem neighbours_main_eq (p : Point2D) :
    p.neighbours_main =
      (([Point2D.mk (p.x + 1 - 1) (p.y + 1 - 1), Point2D.mk (p.x + 1) (p.y + 1 - 1),
         Point2D.mk (p.x + 1 + 1) (p.y + 1 - 1), Point2D.mk (p.x + 1 - 1) (p.y + 1),
         Point2D.mk (p.x + 1 + 1) (p.y + 1), Point2D.mk (p.x + 1 - 1) (p.y + 1 + 1),
         Point2D.mk (p.x + 1) (p.y + 1 + 1), Point2D.mk (p.x + 1 + 1) (p.y + 1 + 1)]
        : List Point2D).filter (fun q => 0 < q.x && 0 < q.y)).map
      (fun q => Point2D.mk (q.x - 1) (q.y - 1)) := rfl

theorem neighbours_main_nodup (p : Point2D) : p.neighbours_main.Nodup := by
  rw [neighbours_main_eq]
  apply List.Nodup.map_on
  · intro x hx y hy hxy
    rw [List.mem_filter] at hx hy
    obtain ⟨a, b⟩ := x
    obtain ⟨c, d⟩ := y
    have hx2 : 0 < a ∧ 0 < b := by
      have h2 := hx.2
      simp only [Bool.and_eq_true, decide_eq_true_eq] at h2
      exact h2
    have hy2 : 0 < c ∧ 0 < d := by
      have h2 := hy.2
      simp only [Bool.and_eq_true, decide_eq_true_eq] at h2
      exact h2
    injection hxy with e1 e2
    replace e1 : a - 1 = c - 1 := e1
    replace e2 : b - 1 = d - 1 := e2
    simp only [Point2D.mk.injEq]
    omega
  · apply List.Nodup.filter
    simp only [List.nodup_cons, List.mem_cons, List.not_mem_nil, or_false, List.nodup_nil,
      and_true, true_and, not_false_eq_true, Point2D.mk.injEq, not_or]
    omega

theorem neighbours_perm (p : Point2D) : p.neighbours_main.Perm p.neighbours := by
  rw [List.perm_ext_iff_of_nodup (neighbours_main_nodup p) (neighbours_nodup p)]
  intro q
  rw [mem_neighbours_main_iff, mem_neighbours_iff]

theorem countNb_main_eq (f : Minefield) (loc : Point2D) :
    countNb Point2D.neighbours_main f loc = countNb Point2D.neighbours f loc := by
  unfold countNb
  exact List.Perm.length_eq
    (List.Perm.filter _ (List.Perm.filterMap f.get (neighbours_perm loc)))

theorem reach_main_iff (f : Minefield) (c q : Point2D) :
    Reach Point2D.neighbours_main f c q ↔ Reach Point2D.neighbours f c q := by
  constructor
  · intro h
    induction h with
    | refl => exact Reach.refl
    | step hr hg hs hk hcnt hmem ih =>
        refine Reach.step ih hg hs hk ?_ ?_
        · rw [← countNb_main_eq]
          exact hcnt
        · rw [mem_neighbours_iff]
          rw [mem_neighbours_main_iff] at hmem
          exact hmem
  · intro h
    induction h with
    | refl => exact Reach.refl
    | step hr hg hs hk hcnt hmem ih =>
        refine Reach.step ih hg hs hk ?_ ?_
        · rw [countNb_main_eq]
          exact hcnt
        · rw [mem_neighbours_main_iff]
          rw [mem_neighbours_iff] at hmem
          exact hmem

theorem openGo_snd (nbr : Point2D → List Point2D) (rc : Bool) (fuel : Nat) (f : Minefield)
    (loc : Point2D) {g : Minefield} {t : Option CellType}
    (h : openGo nbr rc fuel f loc = some (g, t)) : t = (openCell rc f loc).2 := by
  cases fuel with
  | zero => cases h
  | succ fuel =>
    rw [openGo_succ] at h
    by_cases hcond : (openCell rc f loc).2 = some CellType.Water ∧
        countNb nbr (openCell rc f loc).1 loc = 0
    · rw [if_pos hcond] at h
      cases hl : openGoList nbr rc fuel (openCell rc f loc).1 (nbr loc) with
      | none =>
          rw [hl] at h
          cases h
      | some f2 =>
          rw [hl] at h
          simp only [Option.map_some', Option.some_inj, Prod.mk.injEq] at h
          exact h.2.symm
    · rw [if_neg hcond] at h
      rw [Option.some_inj] at h
      rw [h]

theorem open_main_eq_openGo (f : Minefield) (loc : Point2D) (hnf : noFlags f) :
    openGo Point2D.neighbours_main true (f.unopenedCount + 1) f loc =
      some (f.open_main loc) := by
  obtain ⟨r, hr⟩ :=
    openGo_total Point2D.neighbours_main (f.unopenedCount + 1) f loc (Nat.lt_succ_self _)
  unfold Minefield.open_main
  rw [openGo_rc_eq Point2D.neighbours_main (f.unopenedCount + 1) f loc hnf, hr]
  rfl

theorem noFlags_fW2 : noFlags fW2 := by
  intro p c h
  obtain ⟨px, py⟩ := p
  unfold fW2 Minefield.with_data Minefield.get Vec2D.get at h
  by_cases hb : Size2D.contains (Size2D.mk 2 1) (Point2D.mk px py) = true
  · rw [if_pos hb] at h
    simp only [Size2D.contains, Bool.and_eq_true, decide_eq_true_eq] at hb
    have hx : px = 0 ∨ px = 1 := by
      have := hb.1
      omega
    have hy : py = 0 := by
      have := hb.2
      omega
    subst hy
    rcases hx with hx | hx <;> subst hx <;>
      · injection h with e
        rw [← e]
        decide
  · rw [if_neg hb] at h
    cases h

/-- C8: the two implementations of Minefield::open (src/src/game.rs and the
duplicate in src/src/main.rs) are extensionally equal on minefields without
Flagged cells: on the same input they return the same Option<CellType>, leave
fields of the same size and leave every cell identical.  (On fields with a
Flagged cell they differ; see the counterexample.) -/
theorem C8_open_agree (f : Minefield) (loc : Point2D) (hnf : noFlags f) :
    (f.open_main loc).2 = (f.open' loc).2 ∧
    (f.open_main loc).1.size = (f.open' loc).1.size ∧
    ∀ q : Point2D, (f.open_main loc).1.get q = (f.open' loc).1.get q := by
  have hm : openGo Point2D.neighbours_main true (f.unopenedCount + 1) f loc =
      some ((f.open_main loc).1, (f.open_main loc).2) := open_main_eq_openGo f loc hnf
  have hg : openGo Point2D.neighbours true (f.unopenedCount + 1) f loc =
      some ((f.open' loc).1, (f.open' loc).2) := open'_eq_openGo f loc
  have hevm : Evolves f (f.open_main loc).1 :=
    evolves_openGo Point2D.neighbours_main true (f.unopenedCount + 1) f loc
      (f.open_main loc).1 (f.open_main loc).2 hm
  have hevg : Evolves f (f.open' loc).1 :=
    evolves_openGo Point2D.neighbours true (f.unopenedCount + 1) f loc
      (f.open' loc).1 (f.open' loc).2 hg
  have hs1 : (f.open_main loc).2 = (openCell true f loc).2 :=
    openGo_snd Point2D.neighbours_main true (f.unopenedCount + 1) f loc hm
  have hs2 : (f.open' loc).2 = (openCell true f loc).2 :=
    openGo_snd Point2D.neighbours true (f.unopenedCount + 1) f loc hg
  refine ⟨hs1.trans hs2.symm, hevm.1.trans hevg.1.symm, ?_⟩
  by_cases hcond : (openCell true f loc).2 = some CellType.Water ∧
      countNb Point2D.neighbours (openCell true f loc).1 loc = 0
  · obtain ⟨cc, hc, hcs, hck⟩ := openCell_true_water hcond.1
    have hcn : countNb Point2D.neighbours f loc = 0 := by
      rw [← countNb_congr Point2D.neighbours (evolves_openCell true f loc) loc]
      exact hcond.2
    have hcnm : countNb Point2D.neighbours_main f loc = 0 := by
      rw [countNb_main_eq]
      exact hcn
    have hcharm :=
      openGo_characterize Point2D.neighbours_main f loc cc hc hcs hck hcnm hm
    have hcharg :=
      openGo_characterize Point2D.neighbours f loc cc hc hcs hck hcn hg
    intro q
    cases hq : f.get q with
    | none => rw [(hevm.2 q).1 hq, (hevg.2 q).1 hq]
    | some cq =>
      by_cases hr : Reach Point2D.neighbours f loc q
      · rw [(hcharm q cq hq).1 ((reach_main_iff f loc q).2 hr),
          (hcharg q cq hq).1 hr]
      · rw [(hcharm q cq hq).2 (fun hx => hr ((reach_main_iff f loc q).1 hx)),
          (hcharg q cq hq).2 hr]
  · have hcondm : ¬((openCell true f loc).2 = some CellType.Water ∧
        countNb Point2D.neighbours_main (openCell true f loc).1 loc = 0) := by
      intro hx
      refine hcond ⟨hx.1, ?_⟩
      rw [← countNb_main_eq]
      exact hx.2
    rw [openGo_succ, if_neg hcondm] at hm
    rw [openGo_succ, if_neg hcond] at hg
    rw [Option.some_inj] at hm hg
    intro q
    have hm1 : (f.open_main loc).1 = (openCell true f loc).1 :=
      (congrArg Prod.fst hm).symm
    have hg1 : (f.open' loc).1 = (openCell true f loc).1 :=
      (congrArg Prod.fst hg).symm
    rw [hm1, hg1]

theorem C8_witness :
    (fW2.open_main ⟨0, 0⟩).2 = (fW2.open' ⟨0, 0⟩).2 ∧
    (fW2.open_main ⟨0, 0⟩).1.size = (fW2.open' ⟨0, 0⟩).1.size ∧
    ∀ q : Point2D, (fW2.open_main ⟨0, 0⟩).1.get q = (fW2.open' ⟨0, 0⟩).1.get q :=
  C8_open_agree fW2 ⟨0, 0⟩ noFlags_fW2

/-- C8 counterexample: on the 1x1 minefield whose single Water cell is Flagged,
the main.rs open returns Some(Water) (it reports the kind of any not-yet-Opened
cell, including a Flagged one), while the game.rs open re-checks the state after
Cell::open and returns None because the Flagged cell did not open.  So the two
implementations of Minefield::open are not extensionally equal in general. -/
theorem C8_counterexample :
    (fW1.open_main ⟨0, 0⟩).2 = some CellType.Water ∧
    (fW1.open' ⟨0, 0⟩).2 = none := by decide
